import Mathlib

/-! # gentools: generated decorators (logging, tracing, monitoring)

A shallow embedding of the statement builders of `cmd/logen` and
`cmd/tracegen`, and of the generated monitoring middleware
`monitoringGoKitService`.

* Go syntax trees (`go/ast`) are inductive types; a builder is a function that
  returns the tree it builds.
* A run-time panic (indexing `Names[0]` of an empty name list, indexing a
  result list out of range) is the value `none`.
* `quote` stands for Go's `fmt.Sprintf("%q", s)` from the standard library; the
  builders take it as an argument.
-/

/-! ## `go/token` and `go/ast` -/

namespace token

/-- The tokens of `go/token` that the builders write. -/
inductive Token where
  | DEFINE
  | ASSIGN
  | NEQ
  | GTR
  | STRING
  | INT
  deriving DecidableEq

/-- A source position, `token.Pos`. -/
abbrev Pos := Int

/-- The zero value of `token.Pos`: no position. -/
def NoPos : Pos := 0

/-- Method `IsValid` of `token.Pos`. -/
def Pos.IsValid (p : Pos) : Bool := p != NoPos

end token

namespace ast

open token

/-- A field of a field list, `ast.Field`: its names and its type. -/
structure FieldOf (E : Type) where
  Names : List String
  Typ : E

/-- Expressions and type expressions, `ast.Expr`. `Nil` is the nil expression.
An identifier node `*ast.Ident` is its name; `Sel` of a selector is the name of
its identifier. -/
inductive Expr where
  | Nil
  | Ident (Name : String)
  | BasicLit (Kind : Token) (Value : String)
  | SelectorExpr (X : Expr) (Sel : String)
  | StarExpr (X : Expr)
  | ArrayType (Len : Expr) (Elt : Expr)
  | Ellipsis (Ellipsis : Pos) (Elt : Expr)
  | FuncType (Params : List (FieldOf Expr)) (Results : List (FieldOf Expr))
  | CallExpr (Fun : Expr) (Args : List Expr) (Ellipsis : Pos)
  | BinaryExpr (X : Expr) (Op : Token) (Y : Expr)
  | CompositeLit (Typ : Expr) (Elts : List Expr)
  | IndexExpr (X : Expr) (Index : Expr)

/-- A field whose type is an expression, `*ast.Field`. -/
abbrev Field := FieldOf Expr

/-- Statements, `ast.Stmt`. The body of an if-statement is the statement list
of its block. -/
inductive Stmt where
  | EmptyStmt
  | ExprStmt (X : Expr)
  | AssignStmt (Lhs : List Expr) (Tok : Token) (Rhs : List Expr)
  | ReturnStmt (Results : List Expr)
  | DeferStmt (Call : Expr)
  | BlockStmt (List : List Stmt)
  | IfStmt (Init : Option Stmt) (Cond : Expr) (Body : List Stmt) (Else : Option Stmt)

/-- The signature of a function, `*ast.FuncType` of a declaration. -/
structure FuncType where
  Params : List Field
  Results : List Field

/-- A function declaration, `*ast.FuncDecl`. `Doc` lists the texts of the
comments of the comment group; `Body` is the statement list of the block. -/
structure FuncDecl where
  Doc : List String
  Recv : List Field
  Name : String
  Typ : Option FuncType
  Body : List Stmt

end ast

/-! ## `pkg/astgen` and `pkg/transformation` -/

namespace astgen

open ast

/-- Modelled from the spec: the type `astgen.MethodConfig` (package `pkg/astgen`
is not among the sources), the per-method record: name, ordered parameter list,
ordered result list. -/
structure MethodConfig where
  MethodName : String
  MethodParams : List Field
  MethodResults : List Field

/-- Modelled from the spec: `MethodConfig.HasResults` of `pkg/astgen`, which is
not among the sources: the method has results when its result list is not
empty. -/
def MethodConfig.HasResults (m : MethodConfig) : Bool :=
  decide (m.MethodResults.length > 0)

/-- Modelled from the spec: the method builder `astgen.Method` of `pkg/astgen`,
which is not among the sources: it collects the statements of the body in the
order they are added. -/
structure Method where
  name : String
  receiverName : String
  receiverType : String
  typ : Option FuncType
  stmts : List Stmt

/-- Modelled from the spec: `astgen.NewMethod`, not among the sources. -/
def NewMethod (name receiverName receiverType : String) : Method :=
  { name := name, receiverName := receiverName, receiverType := receiverType,
    typ := none, stmts := [] }

/-- Modelled from the spec: `Method.SetType`, not among the sources. -/
def Method.SetType (m : Method) (t : FuncType) : Method :=
  { m with typ := some t }

/-- Modelled from the spec: `Method.AddStatement`, not among the sources: the
statement becomes the last one of the body. -/
def Method.AddStatement (m : Method) (s : Stmt) : Method :=
  { m with stmts := m.stmts ++ [s] }

/-- Modelled from the spec: `Method.Build`, not among the sources: a method of
the wrapper type, with pointer receiver, whose body is the statements added so
far. -/
def Method.Build (m : Method) : FuncDecl :=
  { Doc := []
    Recv := [{ Names := [m.receiverName], Typ := Expr.StarExpr (Expr.Ident m.receiverType) }]
    Name := m.name
    Typ := m.typ
    Body := m.stmts }

end astgen

namespace transformation

open ast

/-- Modelled from the spec: `transformation.FieldsAsAnonymous` of
`pkg/transformation`, which is not among the sources: the same fields, in
order, without their names. -/
def FieldsAsAnonymous (fields : List Field) : List Field :=
  fields.map (fun f => { Names := [], Typ := f.Typ })

end transformation

/-! ## `cmd/logen` -/

namespace logen

open token ast astgen transformation

/-- The list `supportedLoggers`. -/
def supportedLoggers : List String := ["go_kit_log", "zap"]

/-- Function `isLoggerSupported`. -/
def isLoggerSupported (loggerType : String) : Bool :=
  supportedLoggers.any (fun val => val == loggerType)

/-- The type `loggerInfo`, declared in a file that is not among the sources;
its fields are those that `getZapLoggerInfo` sets. -/
structure loggerInfo where
  name : String
  packageAlias : String
  loggerType : Expr
  fieldsType : Expr

/-- The type `LoggingMethodBuilder`. -/
structure LoggingMethodBuilder where
  methodConfig : MethodConfig
  method : Method
  contextPackageAlias : String
  loggerInfo : loggerInfo

/-- Function `NewLoggingMethodBuilder`. -/
def NewLoggingMethodBuilder (structName : String) (methodConfig : MethodConfig)
    (contextPackageAlias : String) (info : loggerInfo) : LoggingMethodBuilder :=
  { methodConfig := methodConfig
    method := NewMethod methodConfig.MethodName "m" structName
    contextPackageAlias := contextPackageAlias
    loggerInfo := info }

/-- Method `LoggingMethodBuilder.contextArgName`. The result is `none` when
`p1.Names[0]` is out of range. -/
def LoggingMethodBuilder.contextArgName (b : LoggingMethodBuilder) : Option (String × Bool) :=
  match b.methodConfig.MethodParams with
  | [] => some ("", false)
  | p1 :: _ =>
    match p1.Typ with
    | Expr.SelectorExpr x sel =>
      if sel = "Context" then
        match x with
        | Expr.Ident id =>
          if id = b.contextPackageAlias then
            (p1.Names[0]?).map (fun name => (name, true))
          else some ("", false)
        | _ => some ("", false)
      else some ("", false)
    | _ => some ("", false)

/-- The type `MethodInvocation` of logen. -/
structure MethodInvocation where
  receiver : Expr
  method : MethodConfig

/-- Method `MethodInvocation.SetReceiver` of logen. -/
def MethodInvocation.SetReceiver (m : MethodInvocation) (s : Expr) : MethodInvocation :=
  { m with receiver := s }

/-- Function `NewMethodInvocation` of logen. -/
def NewMethodInvocation (method : MethodConfig) : MethodInvocation :=
  { receiver := Expr.Nil, method := method }

/-- The loop `for _, f := range fields { sel = append(sel, ast.NewIdent(f.Names[0].String())) }`
of `MethodInvocation.Build` and `ReturnResults.Build`: `none` when some
`Names[0]` is out of range. -/
def selectors : List Field → Option (List Expr)
  | [] => some []
  | f :: fs =>
    match f.Names[0]? with
    | none => none
    | some name =>
      match selectors fs with
      | none => none
      | some rest => some (Expr.Ident name :: rest)

/-- Method `MethodInvocation.Build` of logen. -/
def MethodInvocation.Build (m : MethodInvocation) : Option Stmt :=
  match selectors m.method.MethodResults with
  | none => none
  | some resultSelectors =>
    match selectors m.method.MethodParams with
    | none => none
    | some paramSelectors =>
      let callExpr :=
        Expr.CallExpr (Expr.SelectorExpr m.receiver m.method.MethodName) paramSelectors NoPos
      if m.method.HasResults then
        some (Stmt.AssignStmt resultSelectors Token.DEFINE [callExpr])
      else
        some (Stmt.ExprStmt callExpr)

/-- The type `ReturnResults`. -/
structure ReturnResults where
  method : MethodConfig

/-- Function `NewReturnResults`. -/
def NewReturnResults (m : MethodConfig) : ReturnResults := { method := m }

/-- Method `ReturnResults.Build`. -/
def ReturnResults.Build (r : ReturnResults) : Option Stmt :=
  match selectors r.method.MethodResults with
  | none => none
  | some resultSelectors => some (Stmt.ReturnStmt resultSelectors)

/-- Method `conditionalLogMessageStatementKitLog` (gokitlog.go). -/
def LoggingMethodBuilder.conditionalLogMessageStatementKitLog (quote : String → String)
    (b : LoggingMethodBuilder) (methodName errorResultName : String) : Option Stmt :=
  match b.contextArgName with
  | none => none
  | some (ctxArgName, ok) =>
    let callExpr :=
      Expr.CallExpr (Expr.SelectorExpr (Expr.Ident "m") "fields")
        [Expr.Ident ctxArgName, Expr.Ident errorResultName] NoPos
    let additionalFieldsStmt :=
      if ok then Stmt.AssignStmt [Expr.Ident "_more"] Token.DEFINE [callExpr]
      else Stmt.EmptyStmt
    let appendAdditionalFieldsStmt :=
      if ok then
        Stmt.IfStmt none
          (Expr.BinaryExpr (Expr.CallExpr (Expr.Ident "len") [Expr.Ident "_more"] NoPos)
            Token.GTR (Expr.Ident "0"))
          [Stmt.AssignStmt [Expr.Ident "_fields"] Token.ASSIGN
            [Expr.CallExpr (Expr.Ident "append")
              [Expr.Ident "_fields", Expr.Ident "_more..."] NoPos]]
          none
      else Stmt.EmptyStmt
    let assignStmt :=
      Stmt.AssignStmt [Expr.Ident "_fields"] Token.DEFINE
        [Expr.CompositeLit (Expr.ArrayType Expr.Nil (Expr.Ident "interface\x7b\x7d"))
          [Expr.BasicLit Token.STRING "\"method\"",
           Expr.BasicLit Token.STRING (quote methodName),
           Expr.BasicLit Token.STRING "\"error\"",
           Expr.CallExpr (Expr.SelectorExpr (Expr.Ident errorResultName) "Error") [] NoPos]]
    let callLogExpr :=
      Expr.CallExpr
        (Expr.SelectorExpr (Expr.SelectorExpr (Expr.Ident "m") "logger") "Log")
        [Expr.Ident "_fields..."] NoPos
    some (Stmt.IfStmt none
      (Expr.BinaryExpr (Expr.Ident errorResultName) Token.NEQ (Expr.Ident "nil"))
      [assignStmt, additionalFieldsStmt, appendAdditionalFieldsStmt, Stmt.ExprStmt callLogExpr]
      none)

/-- Method `conditionalLogMessageStatementZap` (zap.go). -/
def LoggingMethodBuilder.conditionalLogMessageStatementZap
    (quote : String → String) (b : LoggingMethodBuilder)
    (methodName errorResultName : String) : Option Stmt :=
  match b.contextArgName with
  | none => none
  | some (ctxArgName, ok) =>
    let callExpr :=
      Expr.CallExpr (Expr.SelectorExpr (Expr.Ident "m") "fields")
        [Expr.Ident ctxArgName, Expr.Ident errorResultName] NoPos
    let additionalFieldsStmt :=
      if ok then Stmt.AssignStmt [Expr.Ident "_more"] Token.DEFINE [callExpr]
      else Stmt.EmptyStmt
    let appendAdditionalFieldsStmt :=
      if ok then
        Stmt.IfStmt none
          (Expr.BinaryExpr (Expr.CallExpr (Expr.Ident "len") [Expr.Ident "_more"] NoPos)
            Token.GTR (Expr.Ident "0"))
          [Stmt.AssignStmt [Expr.Ident "_fields"] Token.ASSIGN
            [Expr.CallExpr (Expr.Ident "append")
              [Expr.Ident "_fields", Expr.Ident "_more..."] NoPos]]
          none
      else Stmt.EmptyStmt
    let assignStmt :=
      Stmt.AssignStmt [Expr.Ident "_fields"] Token.DEFINE
        [Expr.CompositeLit (Expr.ArrayType Expr.Nil b.loggerInfo.fieldsType)
          [Expr.CallExpr (Expr.SelectorExpr (Expr.Ident b.loggerInfo.packageAlias) "String")
             [Expr.BasicLit Token.STRING "\"method\"",
              Expr.BasicLit Token.STRING (quote methodName)] NoPos,
           Expr.CallExpr (Expr.SelectorExpr (Expr.Ident b.loggerInfo.packageAlias) "Error")
             [Expr.Ident errorResultName] NoPos]]
    let callLogExpr :=
      Expr.CallExpr
        (Expr.SelectorExpr (Expr.SelectorExpr (Expr.Ident "m") "logger") "Error")
        [Expr.BasicLit Token.STRING ("\"" ++ methodName ++ " failed\""),
         Expr.Ident "_fields..."] NoPos
    some (Stmt.IfStmt none
      (Expr.BinaryExpr (Expr.Ident errorResultName) Token.NEQ (Expr.Ident "nil"))
      [assignStmt, additionalFieldsStmt, appendAdditionalFieldsStmt, Stmt.ExprStmt callLogExpr]
      none)

/-- Method `LoggingMethodBuilder.Build`. The result is `none` when the code
panics on an index out of range. -/
def LoggingMethodBuilder.Build (quote : String → String) (b : LoggingMethodBuilder) :
    Option FuncDecl :=
  let method := b.method.SetType
    { Params := b.methodConfig.MethodParams
      Results := FieldsAsAnonymous b.methodConfig.MethodResults }
  let methodInvocation :=
    (NewMethodInvocation b.methodConfig).SetReceiver (Expr.SelectorExpr (Expr.Ident "m") "next")
  match methodInvocation.Build with
  | none => none
  | some invocation =>
    let method := method.AddStatement invocation
    let n := b.methodConfig.MethodResults.length
    let logged : Option Method :=
      if n > 0 then
        match b.methodConfig.MethodResults[n - 1]? with
        | none => none
        | some last =>
          match last.Typ with
          | Expr.Ident id =>
            if id = "error" then
              if b.loggerInfo.name = "go_kit_log" then
                match last.Names[0]? with
                | none => none
                | some errName =>
                  (b.conditionalLogMessageStatementKitLog quote
                    b.methodConfig.MethodName errName).map method.AddStatement
              else if b.loggerInfo.name = "zap" then
                match last.Names[0]? with
                | none => none
                | some errName =>
                  (b.conditionalLogMessageStatementZap quote
                    b.methodConfig.MethodName errName).map method.AddStatement
              else some method
            else some method
          | _ => some method
      else some method
    match logged with
    | none => none
    | some method =>
      match (NewReturnResults b.methodConfig).Build with
      | none => none
      | some ret => some (method.AddStatement ret).Build

end logen

/-! ## `cmd/tracegen` -/

namespace astgen

/-- Modelled from the spec: the file builder `astgen.File` of `pkg/astgen`,
which is not among the sources: it keeps the builders of the declarations in
the order they are appended. -/
structure File (B : Type) where
  packageName : String
  declarations : List B

/-- Modelled from the spec: `File.AppendDeclaration`, not among the sources. -/
def File.AppendDeclaration {B : Type} (f : File B) (b : B) : File B :=
  { f with declarations := f.declarations ++ [b] }

end astgen

namespace tracegen

open token ast astgen transformation

/-- The type `constructorBuilder` of tracegen. -/
structure constructorBuilder where
  interfacePackageName : String
  interfaceName : String

/-- The type `tracingMethodBuilder`. -/
structure tracingMethodBuilder where
  fullMethodName : String
  methodConfig : MethodConfig
  method : Method
  tracePackageAlias : String
  contextPackageAlias : String

/-- Function `newTracingMethodBuilder`. -/
def newTracingMethodBuilder (structName : String) (methodConfig : MethodConfig)
    (tracePackageAlias contextPackageAlias fullMethodName : String) : tracingMethodBuilder :=
  { fullMethodName := fullMethodName
    methodConfig := methodConfig
    method := NewMethod methodConfig.MethodName "m" structName
    tracePackageAlias := tracePackageAlias
    contextPackageAlias := contextPackageAlias }

/-- Function `newEndSpanStmt`. -/
def newEndSpanStmt : Stmt :=
  let callExpr := Expr.CallExpr (Expr.SelectorExpr (Expr.Ident "_span") "End") [] NoPos
  Stmt.DeferStmt callExpr

/-- Function `newTraceMethodInvocation`. -/
def newTraceMethodInvocation (quote : String → String)
    (tracePackageAlias contextParamName fullMethodName : String) : Stmt :=
  let paramSelectors :=
    [Expr.Ident contextParamName, Expr.BasicLit Token.STRING (quote fullMethodName)]
  let callExpr :=
    Expr.CallExpr (Expr.SelectorExpr (Expr.Ident tracePackageAlias) "StartSpan")
      paramSelectors NoPos
  let resultSelectors := [Expr.Ident contextParamName, Expr.Ident "_span"]
  Stmt.AssignStmt resultSelectors Token.DEFINE [callExpr]

/-- The type `MethodInvocation` of tracegen. -/
structure MethodInvocation where
  receiver : Expr
  method : MethodConfig

/-- Method `MethodInvocation.SetReceiver` of tracegen. -/
def MethodInvocation.SetReceiver (m : MethodInvocation) (s : Expr) : MethodInvocation :=
  { m with receiver := s }

/-- Function `NewMethodInvocation` of tracegen. -/
def NewMethodInvocation (method : MethodConfig) : MethodInvocation :=
  { receiver := Expr.Nil, method := method }

/-- The loop over the parameters of `MethodInvocation.Build` of tracegen, from
the values of `paramSelectors` and `ellipsisPos` before the remaining
parameters to their values after the loop; `none` when some `Names[0]` is out
of range. The position of an ellipsis node, `p.Pos()`, is its field
`Ellipsis`. -/
def forwardParams : List Field → List Expr → Pos → Option (List Expr × Pos)
  | [], paramSelectors, ellipsisPos => some (paramSelectors, ellipsisPos)
  | param :: rest, paramSelectors, ellipsisPos =>
    match param.Names[0]? with
    | none => none
    | some name =>
      match param.Typ with
      | Expr.Ellipsis p _ => forwardParams rest (paramSelectors ++ [Expr.Ident name]) p
      | _ => forwardParams rest (paramSelectors ++ [Expr.Ident name]) ellipsisPos

/-- Method `MethodInvocation.Build` of tracegen. -/
def MethodInvocation.Build (m : MethodInvocation) : Option Stmt :=
  match forwardParams m.method.MethodParams [] NoPos with
  | none => none
  | some (paramSelectors, ellipsisPos) =>
    let callExpr :=
      Expr.CallExpr (Expr.SelectorExpr m.receiver m.method.MethodName) paramSelectors ellipsisPos
    if m.method.HasResults then
      some (Stmt.ReturnStmt [callExpr])
    else
      some (Stmt.ExprStmt callExpr)

/-- Method `tracingMethodBuilder.Build`. The result is `none` when the code
panics on an index out of range. -/
def tracingMethodBuilder.Build (quote : String → String) (b : tracingMethodBuilder) :
    Option FuncDecl :=
  let method := b.method.SetType
    { Params := b.methodConfig.MethodParams
      Results := FieldsAsAnonymous b.methodConfig.MethodResults }
  let traced : Option Method :=
    match b.methodConfig.MethodParams with
    | [] => some method
    | p1 :: _ =>
      match p1.Typ with
      | Expr.SelectorExpr x sel =>
        if sel = "Context" then
          match x with
          | Expr.Ident id =>
            if id = b.contextPackageAlias then
              match p1.Names[0]? with
              | none => none
              | some name =>
                some ((method.AddStatement
                  (newTraceMethodInvocation quote b.tracePackageAlias name
                    b.fullMethodName)).AddStatement newEndSpanStmt)
            else some method
          | _ => some method
        else some method
      | _ => some method
  match traced with
  | none => none
  | some method =>
    let methodInvocation :=
      (NewMethodInvocation b.methodConfig).SetReceiver
        (Expr.SelectorExpr (Expr.Ident "m") "next")
    match methodInvocation.Build with
    | none => none
    | some invocation => some (method.AddStatement invocation).Build

/-- The builders that tracegen appends to its file: the wrapper type, the
constructor, and one builder per method. -/
inductive Declaration where
  | strct (name : String)
  | constructor (c : constructorBuilder)
  | method (b : tracingMethodBuilder)

/-- The type `model` of tracegen. -/
structure model where
  interfacePath : String
  interfaceName : String
  fileBuilder : File Declaration
  structName : String
  tracePackageAlias : String
  contextPackageAlias : String

/-- Method `model.AddMethod`: the model after the call, and the error it
returns, which is always nil. `fmt.Sprintf("%s.%s.%s", a, b, c)` is the three
strings joined by dots. -/
def model.AddMethod (m : model) (method : MethodConfig) : model × Option String :=
  let fullMethodName := m.interfacePath ++ "." ++ m.interfaceName ++ "." ++ method.MethodName
  let mmb := newTracingMethodBuilder m.structName method m.tracePackageAlias
    m.contextPackageAlias fullMethodName
  ({ m with fileBuilder := m.fileBuilder.AppendDeclaration (Declaration.method mmb) }, none)

end tracegen

/-! ## `cmd/mongen/examples/examplesmws`: the generated monitoring middleware -/

namespace examplesmws

/-- A Go `error` value: `none` is nil, `some msg` an error. -/
abbrev Error := Option String

/-- A counter of `github.com/go-kit/kit/metrics`, as the wrapper sees it: which
counter it is, and the label values it was given by `With`. -/
structure Counter where
  name : String
  labelValues : List String

/-- A histogram of `github.com/go-kit/kit/metrics`, as the wrapper sees it. -/
structure Histogram where
  name : String
  labelValues : List String

/-- The calls that the wrapper makes on its collaborators. `observe h d` is
`h.Observe(d.Seconds())` for the duration `d`, in nanoseconds. `κ` is the type
of the values of `context.Context`. -/
inductive Call (κ : Type) where
  | add (c : Counter) (delta : Int)
  | observe (h : Histogram) (elapsed : Int)
  | DoWork (arg1 : Int) (arg2 : String)
  | DoWorkCtx (arg1 : κ) (arg2 : Int) (arg3 : String)

/-- The world around the wrapper: the state `inner` of everything the delegate
can read and change, the clock included, and the calls the wrapper has made so
far, in order. -/
structure World (σ κ : Type) where
  inner : σ
  calls : List (Call κ)

/-- An implementation of the interface `GoKitService`, the delegate: each
method reads and changes the state behind the wrapper and returns its two
results. `now` is the reading of the clock, in nanoseconds, that `time.Now`
returns in a state. -/
structure GoKitService (σ κ : Type) where
  now : σ → Int
  DoWork : Int → String → σ → (String × Error) × σ
  DoWorkCtx : κ → Int → String → σ → (String × Error) × σ

/-- Method `With` of a counter: a counter with the label values added. -/
def Counter.With (c : Counter) (labelValues : List String) : Counter :=
  { c with labelValues := c.labelValues ++ labelValues }

/-- Method `Add` of a counter. -/
def Counter.Add {σ κ : Type} (c : Counter) (delta : Int) (w : World σ κ) : World σ κ :=
  { w with calls := w.calls ++ [Call.add c delta] }

/-- Method `With` of a histogram: a histogram with the label values added. -/
def Histogram.With (h : Histogram) (labelValues : List String) : Histogram :=
  { h with labelValues := h.labelValues ++ labelValues }

/-- Method `Observe` of a histogram, on the seconds of a duration. -/
def Histogram.Observe {σ κ : Type} (h : Histogram) (elapsed : Int) (w : World σ κ) :
    World σ κ :=
  { w with calls := w.calls ++ [Call.observe h elapsed] }

/-- The call `next.DoWork(arg1, arg2)` on the delegate. -/
def GoKitService.callDoWork {σ κ : Type} (next : GoKitService σ κ) (arg1 : Int)
    (arg2 : String) (w : World σ κ) : (String × Error) × World σ κ :=
  let r := next.DoWork arg1 arg2 w.inner
  (r.1, { inner := r.2, calls := w.calls ++ [Call.DoWork arg1 arg2] })

/-- The call `next.DoWorkCtx(arg1, arg2, arg3)` on the delegate. -/
def GoKitService.callDoWorkCtx {σ κ : Type} (next : GoKitService σ κ) (arg1 : κ)
    (arg2 : Int) (arg3 : String) (w : World σ κ) : (String × Error) × World σ κ :=
  let r := next.DoWorkCtx arg1 arg2 arg3 w.inner
  (r.1, { inner := r.2, calls := w.calls ++ [Call.DoWorkCtx arg1 arg2 arg3] })

/-- The type `monitoringGoKitService`. -/
structure monitoringGoKitService (σ κ : Type) where
  next : GoKitService σ κ
  totalOps : Counter
  failedOps : Counter
  opsDuration : Histogram

/-- Method `monitoringGoKitService.DoWork`. -/
def monitoringGoKitService.DoWork {σ κ : Type} (m : monitoringGoKitService σ κ)
    (arg1 : Int) (arg2 : String) (w : World σ κ) : (String × Error) × World σ κ :=
  let w := (m.totalOps.With ["operation", "do_work"]).Add 1 w
  let _start := m.next.now w.inner
  let r := m.next.callDoWork arg1 arg2 w
  let result1 := r.1.1
  let result2 := r.1.2
  let w := r.2
  let w := (m.opsDuration.With ["operation", "do_work"]).Observe
    (m.next.now w.inner - _start) w
  let w := if result2 ≠ none then (m.failedOps.With ["operation", "do_work"]).Add 1 w else w
  ((result1, result2), w)

/-- Method `monitoringGoKitService.DoWorkCtx`. -/
def monitoringGoKitService.DoWorkCtx {σ κ : Type} (m : monitoringGoKitService σ κ)
    (arg1 : κ) (arg2 : Int) (arg3 : String) (w : World σ κ) : (String × Error) × World σ κ :=
  let w := (m.totalOps.With ["operation", "do_work_ctx"]).Add 1 w
  let _start := m.next.now w.inner
  let r := m.next.callDoWorkCtx arg1 arg2 arg3 w
  let result1 := r.1.1
  let result2 := r.1.2
  let w := r.2
  let w := (m.opsDuration.With ["operation", "do_work_ctx"]).Observe
    (m.next.now w.inner - _start) w
  let w :=
    if result2 ≠ none then (m.failedOps.With ["operation", "do_work_ctx"]).Add 1 w else w
  ((result1, result2), w)

end examplesmws

/-! ## `cmd/logen`: backend description, constructor, arguments -/

namespace logen

open token ast astgen

/-- Function `getZapLoggerInfo` (zap.go). The type `model` of logen and its
method `AddImport` are declared in a file that is not among the sources:
`AddImport` is taken as an argument, from a model, a package name and a
location to the alias it returns and the model after the call. -/
def getZapLoggerInfo {μ : Type} (AddImport : μ → String → String → String × μ) (m : μ) :
    loggerInfo × μ :=
  let r1 := AddImport m "" "go.uber.org/zap"
  let zapAlias := r1.1
  let r2 := AddImport r1.2 "" "go.uber.org/zap/zapcore"
  let aliasCore := r2.1
  ({ name := "zap"
     packageAlias := zapAlias
     loggerType := Expr.StarExpr (Expr.SelectorExpr (Expr.Ident zapAlias) "Logger")
     fieldsType := Expr.SelectorExpr (Expr.Ident aliasCore) "Field" }, r2.2)

/-- The type `constructorBuilder` of logen. -/
structure constructorBuilder where
  logPackageName : String
  interfacePackageName : String
  interfaceName : String
  contextPackageName : String
  loggerInfo : loggerInfo

/-- Function `newConstructorBuilder` of logen. -/
def newConstructorBuilder (packageName interfaceName contextPackageName : String)
    (info : loggerInfo) : constructorBuilder :=
  { logPackageName := ""
    interfacePackageName := packageName
    interfaceName := interfaceName
    contextPackageName := contextPackageName
    loggerInfo := info }

/-- Method `constructorBuilder.Build` of logen. The function `fieldsFuncType`
is declared in a file that is not among the sources and is taken as an
argument: from the alias of the context package and the description of the
backend to the type of a fields-provider. -/
def constructorBuilder.Build (fieldsFuncType : String → logen.loggerInfo → Expr)
    (c : constructorBuilder) : FuncDecl :=
  let funcBody : List Stmt :=
    [Stmt.AssignStmt [Expr.Ident "f"] Token.DEFINE
       [Expr.CompositeLit (fieldsFuncType c.contextPackageName c.loggerInfo)
         [Expr.Ident "return nil"]],
     Stmt.IfStmt none
       (Expr.BinaryExpr (Expr.CallExpr (Expr.Ident "len") [Expr.Ident "fields"] NoPos)
         Token.GTR (Expr.BasicLit Token.INT "0"))
       [Stmt.AssignStmt [Expr.Ident "f"] Token.ASSIGN
         [Expr.IndexExpr (Expr.Ident "fields") (Expr.BasicLit Token.INT "0")]]
       none,
     Stmt.ReturnStmt
       [Expr.Ident ("&errorLogging" ++ c.interfaceName ++
         "\x7bnext: next, logger: logger, fields: f\x7d")]]
  let funcName := "NewErrorLogging" ++ c.interfaceName
  { Doc := ["// " ++ funcName ++ " creates new error logging middleware."]
    Recv := []
    Name := funcName
    Typ := some
      { Params :=
          [{ Names := ["next"]
             Typ := Expr.SelectorExpr (Expr.Ident c.interfacePackageName) c.interfaceName },
           { Names := ["logger"], Typ := c.loggerInfo.loggerType },
           { Names := ["fields"]
             Typ := Expr.Ellipsis NoPos (fieldsFuncType c.contextPackageName c.loggerInfo) }]
        Results :=
          [{ Names := [""]
             Typ := Expr.SelectorExpr (Expr.Ident c.interfacePackageName) c.interfaceName }] }
    Body := funcBody }

/-- Function `parseArgs`, over the positional arguments that `flag.Parse`
leaves (`flag.NArg` is their number, `flag.Arg(i)` the i-th one, or the empty
string). `abs` is `filepath.Abs`; an error is its message. The result is the
error, or the triple `(sourceDir, interfaceName, loggerType)`. -/
def parseArgs (abs : String → Except String String) (args : List String) :
    Except String (String × String × String) :=
  if args.length < 2 then
    Except.error "not enough arguments provided"
  else
    match abs (args.getD 0 "") with
    | Except.error err =>
      Except.error ("error determining absolute path to source directory: " ++ err)
    | Except.ok sourceDir =>
      let interfaceName := args.getD 1 ""
      if args.length = 3 then
        let loggerType := args.getD 2 ""
        if !isLoggerSupported loggerType then
          Except.error ("unsupported logger type: " ++ loggerType)
        else
          Except.ok (sourceDir, interfaceName, loggerType)
      else
        Except.ok (sourceDir, interfaceName, supportedLoggers.getD 0 "")

end logen

/-! ## `cmd/tracegen`: writing the source -/

namespace tracegen

open astgen

/-- How a call ends: it returns an error value (nil is `none`), or it panics. -/
inductive Outcome where
  | returned (err : Option String)
  | panicked

/-- Method `model.WriteSource`, on a writer that accepts every write: `w` is
the text written to it so far, and the result is the text written to it after
the call, with the way the call ends. `build` is `File.Build` of `pkg/astgen`,
which is not among the sources (`none` when building a declaration panics);
`formatNode` is `format.Node` of the standard library: the text it writes to
the writer and the error it returns. -/
def model.WriteSource {F : Type} (build : File Declaration → Option F)
    (formatNode : F → String × Option String) (m : model) (w : String) : String × Outcome :=
  let w := w ++ "// Code generated by tracegen. DO NOT EDIT.\n"
  match build m.fileBuilder with
  | none => (w, Outcome.panicked)
  | some astFile =>
    let r := formatNode astFile
    match r.2 with
    | some err => (w ++ r.1, Outcome.returned (some err))
    | none => (w ++ r.1, Outcome.returned none)

end tracegen

/-! ## Package `unicode`, and the file name of logen -/

namespace unicode

/-- The functions of Go's package `unicode` that `toSnakeCase` calls, on runes
(a rune of a decoded string is a Unicode scalar value). They belong to the
standard library and are taken as given. -/
structure Package where
  IsUpper : Char → Bool
  IsLower : Char → Bool
  IsNumber : Char → Bool
  ToLower : Char → Char

end unicode

namespace logen

/-- Function `toSnakeCase`. `runes` is `[]rune(in)`; the loop runs over the
indices `0 .. len(runes)-1` and `out` is the slice it appends to. Each index it
reads is in range: `i` by the loop condition, `i+1` and `i-1` by the guards in
front of them, so the default of `getD` is never used. -/
def toSnakeCase (U : unicode.Package) (s : String) : String :=
  let runes := s.toList
  let out := (List.range runes.length).foldl
    (fun out i =>
      let out :=
        if decide (i > 0) &&
            (U.IsUpper (runes.getD i default) || U.IsNumber (runes.getD i default)) &&
            ((decide (i + 1 < runes.length) && U.IsLower (runes.getD (i + 1) default)) ||
              U.IsLower (runes.getD (i - 1) default))
        then out ++ ['_'] else out
      out ++ [U.ToLower (runes.getD i default)]) []
  String.mk out

/-- Function `filename` of logen: `fmt.Sprintf("logging_%s.go", ...)`. -/
def filename (U : unicode.Package) (interfaceName : String) : String :=
  "logging_" ++ toSnakeCase U interfaceName ++ ".go"

end logen

/-! ## Vocabulary of the statements -/

namespace ast

open token

/-- The first name of a field, `f.Names[0]`; the empty string when the field
has no name. -/
def FieldOf.firstName {E : Type} (f : FieldOf E) : String := f.Names.headD ""

/-- The identifier made of the first name of a field. -/
def firstIdent (f : Field) : Expr := Expr.Ident f.firstName

/-- A call of a method of the logger of the wrapper, `m.logger.<method>(...)`. -/
def Expr.isLoggerCall : Expr → Bool
  | Expr.CallExpr (Expr.SelectorExpr (Expr.SelectorExpr (Expr.Ident r) f) _) _ _ =>
    r == "m" && f == "logger"
  | _ => false

mutual
/-- The expression is, or contains, a call of the logger. -/
def Expr.hasLoggerCall : Expr → Bool
  | Expr.Nil => false
  | Expr.Ident _ => false
  | Expr.BasicLit _ _ => false
  | Expr.SelectorExpr x _ => x.hasLoggerCall
  | Expr.StarExpr x => x.hasLoggerCall
  | Expr.ArrayType l e => l.hasLoggerCall || e.hasLoggerCall
  | Expr.Ellipsis _ e => e.hasLoggerCall
  | Expr.FuncType ps rs => fieldsHaveLoggerCall ps || fieldsHaveLoggerCall rs
  | Expr.CallExpr f args p =>
    (Expr.CallExpr f args p).isLoggerCall || f.hasLoggerCall || exprsHaveLoggerCall args
  | Expr.BinaryExpr x _ y => x.hasLoggerCall || y.hasLoggerCall
  | Expr.CompositeLit t elts => t.hasLoggerCall || exprsHaveLoggerCall elts
  | Expr.IndexExpr x i => x.hasLoggerCall || i.hasLoggerCall
/-- Some expression of the list is, or contains, a call of the logger. -/
def exprsHaveLoggerCall : List Expr → Bool
  | [] => false
  | e :: es => e.hasLoggerCall || exprsHaveLoggerCall es
/-- The type of some field of the list contains a call of the logger. -/
def fieldsHaveLoggerCall : List (FieldOf Expr) → Bool
  | [] => false
  | ⟨_, t⟩ :: fs => t.hasLoggerCall || fieldsHaveLoggerCall fs
end

mutual
/-- The statement contains a call of the logger. -/
def Stmt.hasLoggerCall : Stmt → Bool
  | Stmt.EmptyStmt => false
  | Stmt.ExprStmt x => x.hasLoggerCall
  | Stmt.AssignStmt lhs _ rhs => exprsHaveLoggerCall lhs || exprsHaveLoggerCall rhs
  | Stmt.ReturnStmt rs => exprsHaveLoggerCall rs
  | Stmt.DeferStmt c => c.hasLoggerCall
  | Stmt.BlockStmt l => stmtsHaveLoggerCall l
  | Stmt.IfStmt i c b e =>
    optStmtHasLoggerCall i || c.hasLoggerCall || stmtsHaveLoggerCall b || optStmtHasLoggerCall e
/-- Some statement of the list contains a call of the logger. -/
def stmtsHaveLoggerCall : List Stmt → Bool
  | [] => false
  | s :: ss => s.hasLoggerCall || stmtsHaveLoggerCall ss
/-- The statement, if there is one, contains a call of the logger. -/
def optStmtHasLoggerCall : Option Stmt → Bool
  | none => false
  | some s => s.hasLoggerCall
end

/-- The statement is a return statement. -/
def Stmt.isReturn : Stmt → Bool
  | Stmt.ReturnStmt _ => true
  | _ => false

/-- The statement is an assignment or a short variable declaration. -/
def Stmt.isAssign : Stmt → Bool
  | Stmt.AssignStmt _ _ _ => true
  | _ => false

/-- The statement starts a span: a short variable declaration of two
variables, the second named `_span`, from one call of a function `StartSpan` of
a package. -/
def Stmt.isSpanStart : Stmt → Bool
  | Stmt.AssignStmt [_, Expr.Ident v] Token.DEFINE
      [Expr.CallExpr (Expr.SelectorExpr (Expr.Ident _) f) _ _] =>
    v == "_span" && f == "StartSpan"
  | _ => false

/-- The statement defers the end of the span: `defer _span.End()`. -/
def Stmt.isSpanEnd : Stmt → Bool
  | Stmt.DeferStmt (Expr.CallExpr (Expr.SelectorExpr (Expr.Ident v) f) [] _) =>
    v == "_span" && f == "End"
  | _ => false

/-- Some statement of the list starts a span and the statement right after it
defers the end of the span. -/
def hasSpanPair : List Stmt → Bool
  | s :: t :: rest => (s.isSpanStart && t.isSpanEnd) || hasSpanPair (t :: rest)
  | _ => false

/-- A call of a method of the delegate of the wrapper, `m.next.<method>(...)`. -/
def Expr.isDelegateCall : Expr → Bool
  | Expr.CallExpr (Expr.SelectorExpr (Expr.SelectorExpr (Expr.Ident r) f) _) _ _ =>
    r == "m" && f == "next"
  | _ => false

/-- The statement assigns the results of a call of the delegate to variables. -/
def Stmt.capturesDelegate : Stmt → Bool
  | Stmt.AssignStmt _ _ rhs => rhs.any Expr.isDelegateCall
  | _ => false

/-- All the names of the fields of a list, in order. -/
def fieldNames : List Field → List String
  | [] => []
  | f :: fs => f.Names ++ fieldNames fs

/-- The selector `m.fields`, the fields-provider of the wrapper. -/
def Expr.isProviderRef : Expr → Bool
  | Expr.SelectorExpr (Expr.Ident r) f => r == "m" && f == "fields"
  | _ => false

mutual
/-- The expression is, or contains, a reference to the fields-provider. -/
def Expr.refersToProvider : Expr → Bool
  | Expr.Nil => false
  | Expr.Ident _ => false
  | Expr.BasicLit _ _ => false
  | Expr.SelectorExpr x f => (Expr.SelectorExpr x f).isProviderRef || x.refersToProvider
  | Expr.StarExpr x => x.refersToProvider
  | Expr.ArrayType l e => l.refersToProvider || e.refersToProvider
  | Expr.Ellipsis _ e => e.refersToProvider
  | Expr.FuncType ps rs => fieldsReferToProvider ps || fieldsReferToProvider rs
  | Expr.CallExpr f args _ => f.refersToProvider || exprsReferToProvider args
  | Expr.BinaryExpr x _ y => x.refersToProvider || y.refersToProvider
  | Expr.CompositeLit t elts => t.refersToProvider || exprsReferToProvider elts
  | Expr.IndexExpr x i => x.refersToProvider || i.refersToProvider
/-- Some expression of the list refers to the fields-provider. -/
def exprsReferToProvider : List Expr → Bool
  | [] => false
  | e :: es => e.refersToProvider || exprsReferToProvider es
/-- The type of some field of the list refers to the fields-provider. -/
def fieldsReferToProvider : List (FieldOf Expr) → Bool
  | [] => false
  | ⟨_, t⟩ :: fs => t.refersToProvider || fieldsReferToProvider fs
end

mutual
/-- The statement contains a reference to the fields-provider. -/
def Stmt.refersToProvider : Stmt → Bool
  | Stmt.EmptyStmt => false
  | Stmt.ExprStmt x => x.refersToProvider
  | Stmt.AssignStmt lhs _ rhs => exprsReferToProvider lhs || exprsReferToProvider rhs
  | Stmt.ReturnStmt rs => exprsReferToProvider rs
  | Stmt.DeferStmt c => c.refersToProvider
  | Stmt.BlockStmt l => stmtsReferToProvider l
  | Stmt.IfStmt i c b e =>
    optStmtRefersToProvider i || c.refersToProvider || stmtsReferToProvider b ||
      optStmtRefersToProvider e
/-- Some statement of the list contains a reference to the fields-provider. -/
def stmtsReferToProvider : List Stmt → Bool
  | [] => false
  | s :: ss => s.refersToProvider || stmtsReferToProvider ss
/-- The statement, if there is one, contains a reference to the
fields-provider. -/
def optStmtRefersToProvider : Option Stmt → Bool
  | none => false
  | some s => s.refersToProvider
end

end ast

namespace astgen

open ast

/-- Every parameter and every result of the method carries a name: the shape of
the records that the builders receive (anonymous results are named `result1`,
`result2`, ... before the builders run). -/
def MethodConfig.Named (m : MethodConfig) : Prop :=
  ∀ f ∈ m.MethodParams ++ m.MethodResults, f.Names ≠ []

/-- The first parameter of the method is of the qualified type
`<ctxAlias>.Context`. -/
def MethodConfig.leadingContext (ctxAlias : String) (m : MethodConfig) : Prop :=
  ∃ p, m.MethodParams.head? = some p ∧
    p.Typ = Expr.SelectorExpr (Expr.Ident ctxAlias) "Context"

end astgen

namespace logen

open token ast astgen

/-- The delegate call `m.next.<MethodName>(<first names of the parameters>)`
that logen builds (no position of an ellipsis is set). -/
def delegateCall (cfg : MethodConfig) : Expr :=
  Expr.CallExpr (Expr.SelectorExpr (Expr.SelectorExpr (Expr.Ident "m") "next") cfg.MethodName)
    (cfg.MethodParams.map firstIdent) NoPos

/-- Go's `%q` on a string all of whose characters are printable and are neither
a double quote nor a backslash: the string between double quotes. -/
def quotePlain (s : String) : String := "\"" ++ s ++ "\""

/-- The method `Do(ctx context.Context, n int) (string, error)` of an
interface `Worker`, its results named `result1` and `result2`. -/
def workerDo : MethodConfig :=
  { MethodName := "Do"
    MethodParams :=
      [{ Names := ["ctx"], Typ := Expr.SelectorExpr (Expr.Ident "context") "Context" },
       { Names := ["n"], Typ := Expr.Ident "int" }]
    MethodResults :=
      [{ Names := ["result1"], Typ := Expr.Ident "string" },
       { Names := ["result2"], Typ := Expr.Ident "error" }] }

/-- The method `Swap(a int) (error, int)`: `error` is a result, but not the
last one. -/
def swapMethod : MethodConfig :=
  { MethodName := "Swap"
    MethodParams := [{ Names := ["a"], Typ := Expr.Ident "int" }]
    MethodResults :=
      [{ Names := ["result1"], Typ := Expr.Ident "error" },
       { Names := ["result2"], Typ := Expr.Ident "int" }] }

/-- The method `Logf(format string, args ...string)`, the ellipsis at position
27 of its file. -/
def logfMethod : MethodConfig :=
  { MethodName := "Logf"
    MethodParams :=
      [{ Names := ["format"], Typ := Expr.Ident "string" },
       { Names := ["args"], Typ := Expr.Ellipsis 27 (Expr.Ident "string") }]
    MethodResults := [] }

/-- The method `Close()`, without parameters and without results. -/
def closeMethod : MethodConfig :=
  { MethodName := "Close", MethodParams := [], MethodResults := [] }

/-- A description of the go_kit_log backend: the name is the one that
`LoggingMethodBuilder.Build` switches on. -/
def kitLogInfo : loggerInfo :=
  { name := "go_kit_log"
    packageAlias := "alias2"
    loggerType := Expr.SelectorExpr (Expr.Ident "alias2") "Logger"
    fieldsType := Expr.Ident "interface\x7b\x7d" }

/-- A model of tracegen for an interface `Worker` found at
`github.com/acme/jobs`. -/
def workerModel : tracegen.model :=
  { interfacePath := "github.com/acme/jobs"
    interfaceName := "Worker"
    fileBuilder := { packageName := "jobsmws", declarations := [] }
    structName := "tracingWorker"
    tracePackageAlias := "alias2"
    contextPackageAlias := "context" }

/-- The test of the loop of `toSnakeCase` for a rune `r`, in terms of the rune
before it, if any, and of the runes after it: an underscore goes before `r`. -/
def needsSeparator (U : unicode.Package) (prev : Option Char) (r : Char)
    (rest : List Char) : Bool :=
  prev.isSome && (U.IsUpper r || U.IsNumber r) &&
    ((rest.head?.map U.IsLower).getD false || (prev.map U.IsLower).getD false)

/-- What the loop of `toSnakeCase` appends for the runes that follow the rune
`prev` (none at the start of the input). -/
def snakeFrom (U : unicode.Package) : Option Char → List Char → List Char
  | _, [] => []
  | prev, r :: rest =>
    (if needsSeparator U prev r rest then ['_'] else []) ++
      U.ToLower r :: snakeFrom U (some r) rest

/-- The runes, each one mapped through `lower`, with an underscore right
before each rune whose mark is true. -/
def withSeparators (lower : Char → Char) : List Bool → List Char → List Char
  | b :: bs, r :: rs => (if b then ['_'] else []) ++ lower r :: withSeparators lower bs rs
  | _, _ => []

/-- The word is one ASCII uppercase letter followed by one or more ASCII
lowercase letters. -/
def isCamelWord (w : String) : Bool :=
  match w.toList with
  | c :: d :: ds => c.isUpper && (d :: ds).all Char.isLower
  | _ => false

/-- What Go's package `unicode` does on the ASCII letters: an uppercase letter
is upper and its lower case is the letter 32 places further; a lowercase letter
is lower, is neither upper nor a number, and is its own lower case. -/
def asciiLetters (U : unicode.Package) : Prop :=
  ∀ c : Char,
    (c.isUpper = true → U.IsUpper c = true ∧ U.ToLower c = c.toLower) ∧
    (c.isLower = true →
      U.IsLower c = true ∧ U.IsUpper c = false ∧ U.IsNumber c = false ∧ U.ToLower c = c)

/-- The functions of package `unicode` restricted to ASCII: letters, digits and
lower case of the ASCII range; every other rune is in no class and is its own
lower case. -/
def asciiPackage : unicode.Package :=
  { IsUpper := Char.isUpper
    IsLower := Char.isLower
    IsNumber := Char.isDigit
    ToLower := Char.toLower }

/-- An `AddImport` on a model that is the list of the locations imported so
far: zap gets the alias `alias2`, any other location `alias3`. -/
def sampleAddImport (m : List String) (_pkgName location : String) : String × List String :=
  (if location = "go.uber.org/zap" then "alias2" else "alias3", m ++ [location])

/-- The description of the zap backend that `getZapLoggerInfo` returns with
`sampleAddImport`. -/
def zapInfo : loggerInfo := (getZapLoggerInfo sampleAddImport []).1

end logen

/-! ## Theorems -/

section Theorems

open token ast astgen transformation logen

/-! ### Shared lemmas -/

theorem getElem?_zero_of_ne_nil (l : List String) (h : l ≠ []) :
    l[0]? = some (l.headD "") := by
  cases l with
  | nil => exact absurd rfl h
  | cons a t => simp

theorem selectors_of_named (fs : List Field) (h : ∀ f ∈ fs, f.Names ≠ []) :
    selectors fs = some (fs.map firstIdent) := by
  induction fs with
  | nil => rfl
  | cons f fs ih =>
    have hf : f.Names[0]? = some (f.Names.headD "") :=
      getElem?_zero_of_ne_nil f.Names (h f (List.mem_cons_self f fs))
    have hrest : selectors fs = some (fs.map firstIdent) :=
      ih (fun g hg => h g (List.mem_cons_of_mem f hg))
    simp [selectors, hf, hrest, firstIdent, FieldOf.firstName]

theorem exprsHaveLoggerCall_firstIdents (fs : List Field) :
    exprsHaveLoggerCall (fs.map firstIdent) = false := by
  induction fs with
  | nil => rfl
  | cons f fs ih => simp [exprsHaveLoggerCall, firstIdent, Expr.hasLoggerCall, ih]

theorem named_params {cfg : MethodConfig} (h : cfg.Named) :
    ∀ f ∈ cfg.MethodParams, f.Names ≠ [] :=
  fun f hf => h f (List.mem_append_left _ hf)

theorem named_results {cfg : MethodConfig} (h : cfg.Named) :
    ∀ f ∈ cfg.MethodResults, f.Names ≠ [] :=
  fun f hf => h f (List.mem_append_right _ hf)

theorem getLast?_firstIdents (fs : List Field) (last : Field)
    (h : fs.getLast? = some last) :
    (fs.map firstIdent).getLast? = some (firstIdent last) := by
  rw [List.getLast?_eq_getElem?] at h ⊢
  simp only [List.length_map, List.getElem?_map, h, Option.map_some']

theorem logen_invocation_of_named (recv : Expr) (cfg : MethodConfig) (h : cfg.Named) :
    ((NewMethodInvocation cfg).SetReceiver recv).Build =
      some (if cfg.MethodResults.isEmpty then
              Stmt.ExprStmt (Expr.CallExpr (Expr.SelectorExpr recv cfg.MethodName)
                (cfg.MethodParams.map firstIdent) NoPos)
            else
              Stmt.AssignStmt (cfg.MethodResults.map firstIdent) Token.DEFINE
                [Expr.CallExpr (Expr.SelectorExpr recv cfg.MethodName)
                  (cfg.MethodParams.map firstIdent) NoPos]) := by
  simp only [MethodInvocation.Build, NewMethodInvocation, MethodInvocation.SetReceiver,
    selectors_of_named _ (named_params h), selectors_of_named _ (named_results h),
    MethodConfig.HasResults]
  by_cases hres : cfg.MethodResults = []
  · simp [hres]
  · have hpos : 0 < cfg.MethodResults.length := List.length_pos.mpr hres
    simp [hres, hpos]

theorem logen_return_of_named (cfg : MethodConfig) (h : cfg.Named) :
    (NewReturnResults cfg).Build = some (Stmt.ReturnStmt (cfg.MethodResults.map firstIdent)) := by
  simp only [ReturnResults.Build, NewReturnResults, selectors_of_named _ (named_results h)]

theorem contextArgName_of_named (structName : String) (cfg : MethodConfig) (ctxAlias : String)
    (info : loggerInfo) (h : cfg.Named) :
    ∃ c ok, (NewLoggingMethodBuilder structName cfg ctxAlias info).contextArgName = some (c, ok) := by
  unfold LoggingMethodBuilder.contextArgName NewLoggingMethodBuilder
  cases hp : cfg.MethodParams with
  | nil => exact ⟨"", false, rfl⟩
  | cons p1 ps =>
    have hn : p1.Names[0]? = some (p1.Names.headD "") :=
      getElem?_zero_of_ne_nil p1.Names (named_params h p1 (by simp [hp]))
    simp only [hn]
    split
    · split
      · split
        · split
          · exact ⟨_, _, rfl⟩
          · exact ⟨_, _, rfl⟩
        · exact ⟨_, _, rfl⟩
      · exact ⟨_, _, rfl⟩
    · exact ⟨_, _, rfl⟩

theorem kitlog_statement_eq (quote : String → String) (b : LoggingMethodBuilder)
    (methodName e c : String) (ok : Bool) (hc : b.contextArgName = some (c, ok)) :
    b.conditionalLogMessageStatementKitLog quote methodName e =
      some (Stmt.IfStmt none (Expr.BinaryExpr (Expr.Ident e) Token.NEQ (Expr.Ident "nil"))
        [Stmt.AssignStmt [Expr.Ident "_fields"] Token.DEFINE
           [Expr.CompositeLit (Expr.ArrayType Expr.Nil (Expr.Ident "interface\x7b\x7d"))
             [Expr.BasicLit Token.STRING "\"method\"",
              Expr.BasicLit Token.STRING (quote methodName),
              Expr.BasicLit Token.STRING "\"error\"",
              Expr.CallExpr (Expr.SelectorExpr (Expr.Ident e) "Error") [] NoPos]],
         (if ok then
            Stmt.AssignStmt [Expr.Ident "_more"] Token.DEFINE
              [Expr.CallExpr (Expr.SelectorExpr (Expr.Ident "m") "fields")
                [Expr.Ident c, Expr.Ident e] NoPos]
          else Stmt.EmptyStmt),
         (if ok then
            Stmt.IfStmt none
              (Expr.BinaryExpr (Expr.CallExpr (Expr.Ident "len") [Expr.Ident "_more"] NoPos)
                Token.GTR (Expr.Ident "0"))
              [Stmt.AssignStmt [Expr.Ident "_fields"] Token.ASSIGN
                [Expr.CallExpr (Expr.Ident "append")
                  [Expr.Ident "_fields", Expr.Ident "_more..."] NoPos]]
              none
          else Stmt.EmptyStmt),
         Stmt.ExprStmt (Expr.CallExpr
           (Expr.SelectorExpr (Expr.SelectorExpr (Expr.Ident "m") "logger") "Log")
           [Expr.Ident "_fields..."] NoPos)]
        none) := by
  simp only [LoggingMethodBuilder.conditionalLogMessageStatementKitLog, hc]

theorem zap_statement_eq (quote : String → String) (b : LoggingMethodBuilder)
    (methodName e c : String) (ok : Bool) (hc : b.contextArgName = some (c, ok)) :
    b.conditionalLogMessageStatementZap quote methodName e =
      some (Stmt.IfStmt none (Expr.BinaryExpr (Expr.Ident e) Token.NEQ (Expr.Ident "nil"))
        [Stmt.AssignStmt [Expr.Ident "_fields"] Token.DEFINE
           [Expr.CompositeLit (Expr.ArrayType Expr.Nil b.loggerInfo.fieldsType)
             [Expr.CallExpr (Expr.SelectorExpr (Expr.Ident b.loggerInfo.packageAlias) "String")
                [Expr.BasicLit Token.STRING "\"method\"",
                 Expr.BasicLit Token.STRING (quote methodName)] NoPos,
              Expr.CallExpr (Expr.SelectorExpr (Expr.Ident b.loggerInfo.packageAlias) "Error")
                [Expr.Ident e] NoPos]],
         (if ok then
            Stmt.AssignStmt [Expr.Ident "_more"] Token.DEFINE
              [Expr.CallExpr (Expr.SelectorExpr (Expr.Ident "m") "fields")
                [Expr.Ident c, Expr.Ident e] NoPos]
          else Stmt.EmptyStmt),
         (if ok then
            Stmt.IfStmt none
              (Expr.BinaryExpr (Expr.CallExpr (Expr.Ident "len") [Expr.Ident "_more"] NoPos)
                Token.GTR (Expr.Ident "0"))
              [Stmt.AssignStmt [Expr.Ident "_fields"] Token.ASSIGN
                [Expr.CallExpr (Expr.Ident "append")
                  [Expr.Ident "_fields", Expr.Ident "_more..."] NoPos]]
              none
          else Stmt.EmptyStmt),
         Stmt.ExprStmt (Expr.CallExpr
           (Expr.SelectorExpr (Expr.SelectorExpr (Expr.Ident "m") "logger") "Error")
           [Expr.BasicLit Token.STRING ("\"" ++ methodName ++ " failed\""),
            Expr.Ident "_fields..."] NoPos)]
        none) := by
  simp only [LoggingMethodBuilder.conditionalLogMessageStatementZap, hc]

theorem kitlog_statement_shape (quote : String → String) (structName : String)
    (cfg : MethodConfig) (ctxAlias : String) (info : loggerInfo) (methodName e : String)
    (h : cfg.Named) :
    ∃ blk,
      (NewLoggingMethodBuilder structName cfg ctxAlias info).conditionalLogMessageStatementKitLog
          quote methodName e =
        some (Stmt.IfStmt none (Expr.BinaryExpr (Expr.Ident e) Token.NEQ (Expr.Ident "nil"))
          blk none) ∧
      stmtsHaveLoggerCall blk = true := by
  obtain ⟨c, ok, hc⟩ := contextArgName_of_named structName cfg ctxAlias info h
  refine ⟨_, kitlog_statement_eq quote _ methodName e c ok hc, ?_⟩
  simp [stmtsHaveLoggerCall, Stmt.hasLoggerCall, Expr.hasLoggerCall, Expr.isLoggerCall]

theorem zap_statement_shape (quote : String → String) (structName : String)
    (cfg : MethodConfig) (ctxAlias : String) (info : loggerInfo) (methodName e : String)
    (h : cfg.Named) :
    ∃ blk,
      (NewLoggingMethodBuilder structName cfg ctxAlias info).conditionalLogMessageStatementZap
          quote methodName e =
        some (Stmt.IfStmt none (Expr.BinaryExpr (Expr.Ident e) Token.NEQ (Expr.Ident "nil"))
          blk none) ∧
      stmtsHaveLoggerCall blk = true := by
  obtain ⟨c, ok, hc⟩ := contextArgName_of_named structName cfg ctxAlias info h
  refine ⟨_, zap_statement_eq quote _ methodName e c ok hc, ?_⟩
  simp [stmtsHaveLoggerCall, Stmt.hasLoggerCall, Expr.hasLoggerCall, Expr.isLoggerCall]

theorem getElem?_zero_of_head? (l : List String) (a : String) (h : l.head? = some a) :
    l[0]? = some a := by
  cases l with
  | nil => simp at h
  | cons b t => simpa using h

theorem firstName_of_head? (f : Field) (a : String) (h : f.Names.head? = some a) :
    f.firstName = a := by
  unfold FieldOf.firstName
  cases hn : f.Names with
  | nil => simp [hn] at h
  | cons b t =>
    rw [hn] at h
    simpa using h

theorem contextArgName_of_leading (structName : String) (cfg : MethodConfig)
    (ctxAlias : String) (info : loggerInfo) (ctxField : Field) (c : String)
    (hfirst : cfg.MethodParams.head? = some ctxField)
    (hctx : ctxField.Typ = Expr.SelectorExpr (Expr.Ident ctxAlias) "Context")
    (hc : ctxField.Names.head? = some c) :
    (NewLoggingMethodBuilder structName cfg ctxAlias info).contextArgName = some (c, true) := by
  unfold LoggingMethodBuilder.contextArgName NewLoggingMethodBuilder
  cases hp : cfg.MethodParams with
  | nil => simp [hp] at hfirst
  | cons p1 ps =>
    have hp1 : p1 = ctxField := by simpa [hp] using hfirst
    subst hp1
    simp [hctx, getElem?_zero_of_head? _ _ hc]

theorem logen_build_logged (quote : String → String) (structName : String)
    (cfg : MethodConfig) (ctxAlias : String) (info : loggerInfo) (last : Field) (e : String)
    (guarded : Stmt) (hnamed : cfg.Named)
    (hlast : cfg.MethodResults.getLast? = some last)
    (herr : last.Typ = Expr.Ident "error")
    (he : last.Names.head? = some e)
    (hS : (info.name = "go_kit_log" ∧
            (NewLoggingMethodBuilder structName cfg ctxAlias
              info).conditionalLogMessageStatementKitLog quote cfg.MethodName e = some guarded) ∨
          (info.name = "zap" ∧
            (NewLoggingMethodBuilder structName cfg ctxAlias
              info).conditionalLogMessageStatementZap quote cfg.MethodName e = some guarded)) :
    ((NewLoggingMethodBuilder structName cfg ctxAlias info).Build quote).map FuncDecl.Body =
      some [Stmt.AssignStmt (cfg.MethodResults.map firstIdent) Token.DEFINE [delegateCall cfg],
            guarded,
            Stmt.ReturnStmt (cfg.MethodResults.map firstIdent)] := by
  have hne : cfg.MethodResults ≠ [] := by
    intro h
    simp [h] at hlast
  have hpos : 0 < cfg.MethodResults.length := List.length_pos.mpr hne
  have hidx : cfg.MethodResults[cfg.MethodResults.length - 1]? = some last := by
    rw [← List.getLast?_eq_getElem?]
    exact hlast
  have hname : last.Names[0]? = some e := getElem?_zero_of_head? _ _ he
  have hinv := logen_invocation_of_named (Expr.SelectorExpr (Expr.Ident "m") "next") cfg hnamed
  have hret := logen_return_of_named cfg hnamed
  have hisE : cfg.MethodResults.isEmpty = false := by
    cases hres : cfg.MethodResults with
    | nil => exact absurd hres hne
    | cons r rs => rfl
  rw [hisE] at hinv
  generalize hb : NewLoggingMethodBuilder structName cfg ctxAlias info = b at hS ⊢
  have hb1 : b.methodConfig = cfg := by subst hb; rfl
  have hb2 : b.loggerInfo = info := by subst hb; rfl
  have hb3 : b.method = NewMethod cfg.MethodName "m" structName := by subst hb; rfl
  rcases hS with ⟨hk, hK⟩ | ⟨hz, hZ⟩
  · simp only [LoggingMethodBuilder.Build, hb1, hb2, hb3, hinv, hret, hpos, hidx, herr, hname,
      hk, hK, if_true, Option.map_some', gt_iff_lt, delegateCall]
    rfl
  · have hnk : ¬ (info.name = "go_kit_log") := by
      rw [hz]
      decide
    simp only [LoggingMethodBuilder.Build, hb1, hb2, hb3, hinv, hret, hpos, hidx, herr, hname,
      hnk, hz, hZ, if_true, if_false, Option.map_some', gt_iff_lt, delegateCall]
    rfl

theorem logen_build_unlogged (quote : String → String) (structName : String)
    (cfg : MethodConfig) (ctxAlias : String) (info : loggerInfo) (hnamed : cfg.Named)
    (hno : ∀ last, cfg.MethodResults.getLast? = some last → last.Typ ≠ Expr.Ident "error") :
    (NewLoggingMethodBuilder structName cfg ctxAlias info).Build quote = some
      ((((NewMethod cfg.MethodName "m" structName).SetType
          { Params := cfg.MethodParams
            Results := FieldsAsAnonymous cfg.MethodResults }).AddStatement
        (if cfg.MethodResults.isEmpty then Stmt.ExprStmt (delegateCall cfg)
          else Stmt.AssignStmt (cfg.MethodResults.map firstIdent) Token.DEFINE
            [delegateCall cfg])).AddStatement
        (Stmt.ReturnStmt (cfg.MethodResults.map firstIdent))).Build := by
  have hinv := logen_invocation_of_named (Expr.SelectorExpr (Expr.Ident "m") "next") cfg hnamed
  have hret := logen_return_of_named cfg hnamed
  generalize hb : NewLoggingMethodBuilder structName cfg ctxAlias info = b
  have hb1 : b.methodConfig = cfg := by subst hb; rfl
  have hb3 : b.method = NewMethod cfg.MethodName "m" structName := by subst hb; rfl
  by_cases hres : cfg.MethodResults = []
  · simp [LoggingMethodBuilder.Build, hb1, hb3, hinv, hret, hres, delegateCall]
  · have hpos : 0 < cfg.MethodResults.length := List.length_pos.mpr hres
    obtain ⟨last, hlast⟩ : ∃ last, cfg.MethodResults.getLast? = some last := by
      cases hl : cfg.MethodResults.getLast? with
      | none => exact absurd (List.getLast?_eq_none_iff.mp hl) hres
      | some l => exact ⟨l, rfl⟩
    have hidx : cfg.MethodResults[cfg.MethodResults.length - 1]? = some last := by
      rw [← List.getLast?_eq_getElem?]
      exact hlast
    have hty := hno last hlast
    have hisE : cfg.MethodResults.isEmpty = false := by
      cases hl : cfg.MethodResults with
      | nil => exact absurd hl hres
      | cons r rs => rfl
    cases hT : last.Typ with
    | Ident id =>
      have hne : ¬ (id = "error") := by
        intro h
        exact hty (by rw [hT, h])
      simp only [LoggingMethodBuilder.Build, hb1, hb3, hinv, hret, hpos, hidx, hT, hne,
        if_true, if_false, gt_iff_lt, delegateCall, hisE]
    | _ =>
      simp only [LoggingMethodBuilder.Build, hb1, hb3, hinv, hret, hpos, hidx, hT,
        if_true, if_false, gt_iff_lt, delegateCall, hisE]

theorem workerDo_named : workerDo.Named := by
  intro f hf
  simp [workerDo] at hf
  rcases hf with rfl | rfl | rfl | rfl <;> simp

theorem swapMethod_named : swapMethod.Named := by
  intro f hf
  simp [swapMethod] at hf
  rcases hf with rfl | rfl | rfl <;> simp

theorem logfMethod_named : logfMethod.Named := by
  intro f hf
  simp [logfMethod] at hf
  rcases hf with rfl | rfl <;> simp

theorem closeMethod_named : closeMethod.Named := by
  intro f hf
  simp [closeMethod] at hf

/-! ### Logging variant -/

/-- C1: in the logging variant with backend go_kit_log or zap, a method whose
last result has the type identifier `error` gets a body of exactly three
statements: the delegate invocation capturing the results, an if-statement
without else branch whose condition is `<e> != nil` for the name `<e>` of the
last result (the last captured variable), and the return of the captured
results; a call of the logger occurs in the body of the if-statement and
nowhere else. -/
theorem logging_guards_trailing_error (quote : String → String) (structName : String)
    (cfg : MethodConfig) (ctxAlias : String) (info : loggerInfo) (last : Field)
    (hnamed : cfg.Named)
    (hbackend : info.name = "go_kit_log" ∨ info.name = "zap")
    (hlast : cfg.MethodResults.getLast? = some last)
    (herr : last.Typ = Expr.Ident "error") :
    ∃ decl blk,
      (NewLoggingMethodBuilder structName cfg ctxAlias info).Build quote = some decl ∧
      decl.Body =
        [Stmt.AssignStmt (cfg.MethodResults.map firstIdent) Token.DEFINE [delegateCall cfg],
         Stmt.IfStmt none
           (Expr.BinaryExpr (Expr.Ident last.firstName) Token.NEQ (Expr.Ident "nil")) blk none,
         Stmt.ReturnStmt (cfg.MethodResults.map firstIdent)] ∧
      (cfg.MethodResults.map firstIdent).getLast? = some (Expr.Ident last.firstName) ∧
      (Stmt.AssignStmt (cfg.MethodResults.map firstIdent) Token.DEFINE
        [delegateCall cfg]).hasLoggerCall = false ∧
      (Expr.BinaryExpr (Expr.Ident last.firstName) Token.NEQ
        (Expr.Ident "nil")).hasLoggerCall = false ∧
      (Stmt.ReturnStmt (cfg.MethodResults.map firstIdent)).hasLoggerCall = false ∧
      stmtsHaveLoggerCall blk = true := by
  have hne : cfg.MethodResults ≠ [] := by
    intro h
    simp [h] at hlast
  have hpos : 0 < cfg.MethodResults.length := List.length_pos.mpr hne
  have hidx : cfg.MethodResults[cfg.MethodResults.length - 1]? = some last := by
    rw [← List.getLast?_eq_getElem?]
    exact hlast
  have hmem : last ∈ cfg.MethodResults := List.mem_of_getLast?_eq_some hlast
  have hname : last.Names[0]? = some last.firstName :=
    getElem?_zero_of_ne_nil last.Names (named_results hnamed last hmem)
  have hclean : exprsHaveLoggerCall (cfg.MethodResults.map firstIdent) = false :=
    exprsHaveLoggerCall_firstIdents _
  have hargs : exprsHaveLoggerCall (cfg.MethodParams.map firstIdent) = false :=
    exprsHaveLoggerCall_firstIdents _
  obtain ⟨blkK, hK, hKlog⟩ := kitlog_statement_shape quote structName cfg ctxAlias info
    cfg.MethodName last.firstName hnamed
  obtain ⟨blkZ, hZ, hZlog⟩ := zap_statement_shape quote structName cfg ctxAlias info
    cfg.MethodName last.firstName hnamed
  have hinv := logen_invocation_of_named (Expr.SelectorExpr (Expr.Ident "m") "next") cfg hnamed
  have hret := logen_return_of_named cfg hnamed
  have hfacts :
      (cfg.MethodResults.map firstIdent).getLast? = some (Expr.Ident last.firstName) ∧
      (Stmt.AssignStmt (cfg.MethodResults.map firstIdent) Token.DEFINE
        [delegateCall cfg]).hasLoggerCall = false ∧
      (Expr.BinaryExpr (Expr.Ident last.firstName) Token.NEQ
        (Expr.Ident "nil")).hasLoggerCall = false ∧
      (Stmt.ReturnStmt (cfg.MethodResults.map firstIdent)).hasLoggerCall = false := by
    refine ⟨getLast?_firstIdents _ _ hlast, ?_, ?_, ?_⟩
    · simp [Stmt.hasLoggerCall, exprsHaveLoggerCall, Expr.hasLoggerCall, Expr.isLoggerCall,
        delegateCall, hclean, hargs]
    · simp [Expr.hasLoggerCall]
    · simp [Stmt.hasLoggerCall, hclean]
  have hisE : cfg.MethodResults.isEmpty = false := by
    cases hres : cfg.MethodResults with
    | nil => exact absurd hres hne
    | cons r rs => rfl
  rw [hisE] at hinv
  generalize hb : NewLoggingMethodBuilder structName cfg ctxAlias info = b at hK hZ ⊢
  have hb1 : b.methodConfig = cfg := by subst hb; rfl
  have hb2 : b.loggerInfo = info := by subst hb; rfl
  have hb3 : b.method = NewMethod cfg.MethodName "m" structName := by subst hb; rfl
  rcases hbackend with hk | hz
  · have hbuild : b.Build quote = some
        (((((NewMethod cfg.MethodName "m" structName).SetType
            { Params := cfg.MethodParams
              Results := FieldsAsAnonymous cfg.MethodResults }).AddStatement
          (Stmt.AssignStmt (cfg.MethodResults.map firstIdent) Token.DEFINE
            [delegateCall cfg])).AddStatement
          (Stmt.IfStmt none
            (Expr.BinaryExpr (Expr.Ident last.firstName) Token.NEQ (Expr.Ident "nil"))
            blkK none)).AddStatement
          (Stmt.ReturnStmt (cfg.MethodResults.map firstIdent))).Build := by
      simp only [LoggingMethodBuilder.Build, hb1, hb2, hb3, hinv, hret, hpos, hidx, herr, hname,
        hk, hK, if_true, Option.map_some', gt_iff_lt, delegateCall]
      rfl
    exact ⟨_, blkK, hbuild, rfl, hfacts.1, hfacts.2.1, hfacts.2.2.1, hfacts.2.2.2, hKlog⟩
  · have hnk : ¬ (info.name = "go_kit_log") := by
      rw [hz]
      decide
    have hbuild : b.Build quote = some
        (((((NewMethod cfg.MethodName "m" structName).SetType
            { Params := cfg.MethodParams
              Results := FieldsAsAnonymous cfg.MethodResults }).AddStatement
          (Stmt.AssignStmt (cfg.MethodResults.map firstIdent) Token.DEFINE
            [delegateCall cfg])).AddStatement
          (Stmt.IfStmt none
            (Expr.BinaryExpr (Expr.Ident last.firstName) Token.NEQ (Expr.Ident "nil"))
            blkZ none)).AddStatement
          (Stmt.ReturnStmt (cfg.MethodResults.map firstIdent))).Build := by
      simp only [LoggingMethodBuilder.Build, hb1, hb2, hb3, hinv, hret, hpos, hidx, herr, hname,
        hnk, hz, hZ, if_true, if_false, Option.map_some', gt_iff_lt, delegateCall]
      rfl
    exact ⟨_, blkZ, hbuild, rfl, hfacts.1, hfacts.2.1, hfacts.2.2.1, hfacts.2.2.2, hZlog⟩

/-- The witness of C1: the method `Do(ctx context.Context, n int) (string, error)`
with the go_kit_log backend. -/
theorem logging_guards_trailing_error_witness :
    workerDo.Named ∧
    (kitLogInfo.name = "go_kit_log" ∨ kitLogInfo.name = "zap") ∧
    workerDo.MethodResults.getLast? =
      some { Names := ["result2"], Typ := Expr.Ident "error" } ∧
    ∃ decl blk,
      (NewLoggingMethodBuilder "errorLoggingWorker" workerDo "context" kitLogInfo).Build
        quotePlain = some decl ∧
      decl.Body =
        [Stmt.AssignStmt [Expr.Ident "result1", Expr.Ident "result2"] Token.DEFINE
           [delegateCall workerDo],
         Stmt.IfStmt none
           (Expr.BinaryExpr (Expr.Ident "result2") Token.NEQ (Expr.Ident "nil")) blk none,
         Stmt.ReturnStmt [Expr.Ident "result1", Expr.Ident "result2"]] ∧
      stmtsHaveLoggerCall blk = true := by
  have hnamed : workerDo.Named := workerDo_named
  refine ⟨hnamed, Or.inl rfl, rfl, ?_⟩
  obtain ⟨decl, blk, hbuild, hbody, _, _, _, _, hlog⟩ :=
    logging_guards_trailing_error quotePlain "errorLoggingWorker" workerDo "context" kitLogInfo
      { Names := ["result2"], Typ := Expr.Ident "error" } hnamed (Or.inl rfl) rfl rfl
  exact ⟨decl, blk, hbuild, hbody, hlog⟩

/-- C2: in the logging variant, a method without results, or whose last result
has a type other than the identifier `error`, gets no logging statement: the
body is the delegate invocation followed by the return of the captured
results, and nothing in it calls the logger. -/
theorem logging_skipped_without_trailing_error (quote : String → String)
    (structName : String) (cfg : MethodConfig) (ctxAlias : String) (info : loggerInfo)
    (hnamed : cfg.Named)
    (hno : ∀ last, cfg.MethodResults.getLast? = some last → last.Typ ≠ Expr.Ident "error") :
    ∃ decl,
      (NewLoggingMethodBuilder structName cfg ctxAlias info).Build quote = some decl ∧
      decl.Body =
        [(if cfg.MethodResults.isEmpty then Stmt.ExprStmt (delegateCall cfg)
          else Stmt.AssignStmt (cfg.MethodResults.map firstIdent) Token.DEFINE
            [delegateCall cfg]),
         Stmt.ReturnStmt (cfg.MethodResults.map firstIdent)] ∧
      stmtsHaveLoggerCall decl.Body = false := by
  have hinv := logen_invocation_of_named (Expr.SelectorExpr (Expr.Ident "m") "next") cfg hnamed
  have hret := logen_return_of_named cfg hnamed
  have hclean : exprsHaveLoggerCall (cfg.MethodResults.map firstIdent) = false :=
    exprsHaveLoggerCall_firstIdents _
  have hargs : exprsHaveLoggerCall (cfg.MethodParams.map firstIdent) = false :=
    exprsHaveLoggerCall_firstIdents _
  have hbuild := logen_build_unlogged quote structName cfg ctxAlias info hnamed hno
  refine ⟨_, hbuild, rfl, ?_⟩
  by_cases hres : cfg.MethodResults = []
  · simp [Method.Build, Method.AddStatement, Method.SetType, NewMethod, hres,
      stmtsHaveLoggerCall, Stmt.hasLoggerCall, Expr.hasLoggerCall, Expr.isLoggerCall,
      exprsHaveLoggerCall, delegateCall, hargs]
  · simp [Method.Build, Method.AddStatement, Method.SetType, NewMethod, hres,
      stmtsHaveLoggerCall, Stmt.hasLoggerCall, Expr.hasLoggerCall, Expr.isLoggerCall,
      exprsHaveLoggerCall, delegateCall, hargs, hclean]

/-- The witness of C2: the method `Swap(a int) (error, int)`, where `error` is a
result in a position that is not the last. -/
theorem logging_skipped_without_trailing_error_witness :
    swapMethod.Named ∧
    (∀ last, swapMethod.MethodResults.getLast? = some last → last.Typ ≠ Expr.Ident "error") ∧
    ∃ decl,
      (NewLoggingMethodBuilder "errorLoggingStore" swapMethod "context" kitLogInfo).Build
        quotePlain = some decl ∧
      decl.Body =
        [Stmt.AssignStmt [Expr.Ident "result1", Expr.Ident "result2"] Token.DEFINE
           [delegateCall swapMethod],
         Stmt.ReturnStmt [Expr.Ident "result1", Expr.Ident "result2"]] ∧
      stmtsHaveLoggerCall decl.Body = false := by
  have hno : ∀ last, swapMethod.MethodResults.getLast? = some last →
      last.Typ ≠ Expr.Ident "error" := by
    intro last hlast
    have hl : last = { Names := ["result2"], Typ := Expr.Ident "int" } := by
      simpa [swapMethod] using hlast.symm
    rw [hl]
    simp
  exact ⟨swapMethod_named, hno,
    logging_skipped_without_trailing_error quotePlain "errorLoggingStore" swapMethod "context"
      kitLogInfo swapMethod_named hno⟩

/-- C3: with the go_kit_log backend, for a method named `M` with a leading
context parameter named `c` and a trailing error result named `e`, the body is
the delegate invocation capturing the results, then exactly
`if e != nil { _fields := []interface{}{"method", "M", "error", e.Error()};
_more := m.fields(c, e); if len(_more) > 0 { _fields = append(_fields, _more...) };
m.logger.Log(_fields...) }`, then the return of the captured results. -/
theorem kitlog_guarded_block_exact (quote : String → String) (structName : String)
    (cfg : MethodConfig) (ctxAlias : String) (info : loggerInfo)
    (ctxField errField : Field) (c e : String)
    (hnamed : cfg.Named) (hkit : info.name = "go_kit_log")
    (hfirst : cfg.MethodParams.head? = some ctxField)
    (hctx : ctxField.Typ = Expr.SelectorExpr (Expr.Ident ctxAlias) "Context")
    (hc : ctxField.Names.head? = some c)
    (hlast : cfg.MethodResults.getLast? = some errField)
    (herr : errField.Typ = Expr.Ident "error")
    (he : errField.Names.head? = some e) :
    ((NewLoggingMethodBuilder structName cfg ctxAlias info).Build quote).map FuncDecl.Body =
      some
        [Stmt.AssignStmt (cfg.MethodResults.map firstIdent) Token.DEFINE
           [Expr.CallExpr
             (Expr.SelectorExpr (Expr.SelectorExpr (Expr.Ident "m") "next") cfg.MethodName)
             (cfg.MethodParams.map firstIdent) NoPos],
         Stmt.IfStmt none (Expr.BinaryExpr (Expr.Ident e) Token.NEQ (Expr.Ident "nil"))
           [Stmt.AssignStmt [Expr.Ident "_fields"] Token.DEFINE
              [Expr.CompositeLit (Expr.ArrayType Expr.Nil (Expr.Ident "interface\x7b\x7d"))
                [Expr.BasicLit Token.STRING "\"method\"",
                 Expr.BasicLit Token.STRING (quote cfg.MethodName),
                 Expr.BasicLit Token.STRING "\"error\"",
                 Expr.CallExpr (Expr.SelectorExpr (Expr.Ident e) "Error") [] NoPos]],
            Stmt.AssignStmt [Expr.Ident "_more"] Token.DEFINE
              [Expr.CallExpr (Expr.SelectorExpr (Expr.Ident "m") "fields")
                [Expr.Ident c, Expr.Ident e] NoPos],
            Stmt.IfStmt none
              (Expr.BinaryExpr (Expr.CallExpr (Expr.Ident "len") [Expr.Ident "_more"] NoPos)
                Token.GTR (Expr.Ident "0"))
              [Stmt.AssignStmt [Expr.Ident "_fields"] Token.ASSIGN
                [Expr.CallExpr (Expr.Ident "append")
                  [Expr.Ident "_fields", Expr.Ident "_more..."] NoPos]]
              none,
            Stmt.ExprStmt (Expr.CallExpr
              (Expr.SelectorExpr (Expr.SelectorExpr (Expr.Ident "m") "logger") "Log")
              [Expr.Ident "_fields..."] NoPos)]
           none,
         Stmt.ReturnStmt (cfg.MethodResults.map firstIdent)] := by
  have hcan := contextArgName_of_leading structName cfg ctxAlias info ctxField c hfirst hctx hc
  have hK := kitlog_statement_eq quote _ cfg.MethodName e c true hcan
  simp only [if_true] at hK
  exact logen_build_logged quote structName cfg ctxAlias info errField e _ hnamed hlast herr he
    (Or.inl ⟨hkit, hK⟩)

/-- The witness of C3: `Do(ctx context.Context, n int) (string, error)` of
`Worker`, results `result1` and `result2`: the body is
`result1, result2 := m.next.Do(ctx, n)`, the guarded block with `e = result2`
and `c = ctx`, then `return result1, result2`. -/
theorem kitlog_guarded_block_exact_witness :
    workerDo.Named ∧
    ((NewLoggingMethodBuilder "errorLoggingWorker" workerDo "context" kitLogInfo).Build
        quotePlain).map FuncDecl.Body =
      some
        [Stmt.AssignStmt [Expr.Ident "result1", Expr.Ident "result2"] Token.DEFINE
           [Expr.CallExpr
             (Expr.SelectorExpr (Expr.SelectorExpr (Expr.Ident "m") "next") "Do")
             [Expr.Ident "ctx", Expr.Ident "n"] NoPos],
         Stmt.IfStmt none (Expr.BinaryExpr (Expr.Ident "result2") Token.NEQ (Expr.Ident "nil"))
           [Stmt.AssignStmt [Expr.Ident "_fields"] Token.DEFINE
              [Expr.CompositeLit (Expr.ArrayType Expr.Nil (Expr.Ident "interface\x7b\x7d"))
                [Expr.BasicLit Token.STRING "\"method\"",
                 Expr.BasicLit Token.STRING "\"Do\"",
                 Expr.BasicLit Token.STRING "\"error\"",
                 Expr.CallExpr (Expr.SelectorExpr (Expr.Ident "result2") "Error") [] NoPos]],
            Stmt.AssignStmt [Expr.Ident "_more"] Token.DEFINE
              [Expr.CallExpr (Expr.SelectorExpr (Expr.Ident "m") "fields")
                [Expr.Ident "ctx", Expr.Ident "result2"] NoPos],
            Stmt.IfStmt none
              (Expr.BinaryExpr (Expr.CallExpr (Expr.Ident "len") [Expr.Ident "_more"] NoPos)
                Token.GTR (Expr.Ident "0"))
              [Stmt.AssignStmt [Expr.Ident "_fields"] Token.ASSIGN
                [Expr.CallExpr (Expr.Ident "append")
                  [Expr.Ident "_fields", Expr.Ident "_more..."] NoPos]]
              none,
            Stmt.ExprStmt (Expr.CallExpr
              (Expr.SelectorExpr (Expr.SelectorExpr (Expr.Ident "m") "logger") "Log")
              [Expr.Ident "_fields..."] NoPos)]
           none,
         Stmt.ReturnStmt [Expr.Ident "result1", Expr.Ident "result2"]] :=
  ⟨workerDo_named,
    kitlog_guarded_block_exact quotePlain "errorLoggingWorker" workerDo "context" kitLogInfo
      { Names := ["ctx"], Typ := Expr.SelectorExpr (Expr.Ident "context") "Context" }
      { Names := ["result2"], Typ := Expr.Ident "error" } "ctx" "result2"
      workerDo_named rfl rfl rfl rfl rfl rfl rfl⟩

/-- C4 (the code diverges from the claim): for the method
`Logf(format string, args ...string)`, whose last parameter is variadic with its
ellipsis at a valid position, the delegate call that `MethodInvocation.Build`
of logen builds is `m.next.Logf(format, args)` with `Ellipsis` left at
`token.NoPos`: the variadic parameter is forwarded as a single argument. -/
theorem logen_variadic_call_lacks_ellipsis :
    logfMethod.MethodParams.getLast? =
      some { Names := ["args"], Typ := Expr.Ellipsis 27 (Expr.Ident "string") } ∧
    Pos.IsValid 27 = true ∧
    ((NewMethodInvocation logfMethod).SetReceiver
        (Expr.SelectorExpr (Expr.Ident "m") "next")).Build =
      some (Stmt.ExprStmt
        (Expr.CallExpr
          (Expr.SelectorExpr (Expr.SelectorExpr (Expr.Ident "m") "next") "Logf")
          [Expr.Ident "format", Expr.Ident "args"] NoPos)) ∧
    Pos.IsValid NoPos = false := by
  refine ⟨rfl, by decide, ?_, by decide⟩
  exact logen_invocation_of_named _ logfMethod logfMethod_named

/-- C6, as stated, fails: for the method `Close()`, which has no results, the
body built by the logging variant is the bare call `m.next.Close()` followed by
a return statement without results, so it does contain a return statement. -/
theorem logging_zero_results_has_return :
    ∃ decl,
      (NewLoggingMethodBuilder "errorLoggingCloser" closeMethod "context" kitLogInfo).Build
        quotePlain = some decl ∧
      decl.Body = [Stmt.ExprStmt (delegateCall closeMethod), Stmt.ReturnStmt []] ∧
      ¬ (∀ s ∈ decl.Body, s.isReturn = false) := by
  have hno : ∀ last, closeMethod.MethodResults.getLast? = some last →
      last.Typ ≠ Expr.Ident "error" := by
    intro last hlast
    simp [closeMethod] at hlast
  refine ⟨_, logen_build_unlogged quotePlain "errorLoggingCloser" closeMethod "context"
    kitLogInfo closeMethod_named hno, rfl, ?_⟩
  intro h
  have := h (Stmt.ReturnStmt []) (by
    simp [Method.Build, Method.AddStatement, Method.SetType, NewMethod, closeMethod])
  simp [Stmt.isReturn] at this

/-- C6, amended: for a method with an empty result list, the body built by the
logging variant is exactly two statements: the delegate call as a bare
expression statement, and a return statement that lists no results; no
statement of the body is a result-capturing assignment. -/
theorem logging_zero_results_body (quote : String → String) (structName : String)
    (cfg : MethodConfig) (ctxAlias : String) (info : loggerInfo)
    (hnamed : cfg.Named) (hres : cfg.MethodResults = []) :
    ∃ decl,
      (NewLoggingMethodBuilder structName cfg ctxAlias info).Build quote = some decl ∧
      decl.Body = [Stmt.ExprStmt (delegateCall cfg), Stmt.ReturnStmt []] ∧
      (∀ s ∈ decl.Body, s.isAssign = false) := by
  have hno : ∀ last, cfg.MethodResults.getLast? = some last →
      last.Typ ≠ Expr.Ident "error" := by
    intro last hlast
    simp [hres] at hlast
  have hbody :
      ((((NewMethod cfg.MethodName "m" structName).SetType
          { Params := cfg.MethodParams
            Results := FieldsAsAnonymous cfg.MethodResults }).AddStatement
        (if cfg.MethodResults.isEmpty then Stmt.ExprStmt (delegateCall cfg)
          else Stmt.AssignStmt (cfg.MethodResults.map firstIdent) Token.DEFINE
            [delegateCall cfg])).AddStatement
        (Stmt.ReturnStmt (cfg.MethodResults.map firstIdent))).Build.Body =
      [Stmt.ExprStmt (delegateCall cfg), Stmt.ReturnStmt []] := by
    simp [Method.Build, Method.AddStatement, Method.SetType, NewMethod, hres]
  refine ⟨_, logen_build_unlogged quote structName cfg ctxAlias info hnamed hno, hbody, ?_⟩
  rw [hbody]
  intro s hs
  simp at hs
  rcases hs with rfl | rfl <;> rfl

/-- The witness of C6 as amended: the method `Close()`. -/
theorem logging_zero_results_body_witness :
    closeMethod.Named ∧ closeMethod.MethodResults = [] ∧
    ∃ decl,
      (NewLoggingMethodBuilder "errorLoggingCloser" closeMethod "context" kitLogInfo).Build
        quotePlain = some decl ∧
      decl.Body = [Stmt.ExprStmt (delegateCall closeMethod), Stmt.ReturnStmt []] ∧
      (∀ s ∈ decl.Body, s.isAssign = false) :=
  ⟨closeMethod_named, rfl,
    logging_zero_results_body quotePlain "errorLoggingCloser" closeMethod "context" kitLogInfo
      closeMethod_named rfl⟩

/-! ### Tracing variant -/

theorem forwardParams_of_named (fs : List Field) (h : ∀ f ∈ fs, f.Names ≠ []) :
    ∀ (acc : List Expr) (pos : Pos),
      ∃ pos', tracegen.forwardParams fs acc pos = some (acc ++ fs.map firstIdent, pos') ∧
        (∀ lastP p elt, fs.getLast? = some lastP → lastP.Typ = Expr.Ellipsis p elt →
          pos' = p) ∧
        ((∀ f ∈ fs, ∀ p elt, f.Typ ≠ Expr.Ellipsis p elt) → pos' = pos) := by
  induction fs with
  | nil =>
    intro acc pos
    exact ⟨pos, by simp [tracegen.forwardParams], by simp, fun _ => rfl⟩
  | cons f fs ih =>
    intro acc pos
    have hf : f.Names[0]? = some f.firstName :=
      getElem?_zero_of_ne_nil f.Names (h f (List.mem_cons_self f fs))
    have hrest : ∀ g ∈ fs, g.Names ≠ [] := fun g hg => h g (List.mem_cons_of_mem f hg)
    cases hT : f.Typ with
    | Ellipsis p0 elt0 =>
      obtain ⟨pos', hfw, hlast, hnone⟩ := ih hrest (acc ++ [Expr.Ident f.firstName]) p0
      refine ⟨pos', ?_, ?_, ?_⟩
      · simp [tracegen.forwardParams, hf, hT, hfw, firstIdent]
      · intro lastP p elt hl hty
        cases fs with
        | nil =>
          have hfl : f = lastP := by simpa using hl
          subst hfl
          have hpos : pos' = p0 := hnone (by simp)
          rw [hT] at hty
          injection hty with hp _
          rw [hpos, hp]
        | cons g gs =>
          exact hlast lastP p elt (by simpa [List.getLast?_cons_cons] using hl) hty
      · intro hno
        exact absurd hT (hno f (List.mem_cons_self f fs) p0 elt0)
    | _ =>
      obtain ⟨pos', hfw, hlast, hnone⟩ := ih hrest (acc ++ [Expr.Ident f.firstName]) pos
      refine ⟨pos', ?_, ?_, ?_⟩
      · simp [tracegen.forwardParams, hf, hT, hfw, firstIdent]
      · intro lastP p elt hl hty
        cases fs with
        | nil =>
          have hfl : f = lastP := by simpa using hl
          subst hfl
          rw [hT] at hty
          cases hty
        | cons g gs =>
          exact hlast lastP p elt (by simpa [List.getLast?_cons_cons] using hl) hty
      · intro hno
        exact hnone (fun g hg => hno g (List.mem_cons_of_mem f hg))

theorem tracegen_invocation_of_named (recv : Expr) (cfg : MethodConfig) (h : cfg.Named) :
    ∃ pos,
      ((tracegen.NewMethodInvocation cfg).SetReceiver recv).Build =
        some (if cfg.MethodResults.isEmpty then
                Stmt.ExprStmt (Expr.CallExpr (Expr.SelectorExpr recv cfg.MethodName)
                  (cfg.MethodParams.map firstIdent) pos)
              else
                Stmt.ReturnStmt [Expr.CallExpr (Expr.SelectorExpr recv cfg.MethodName)
                  (cfg.MethodParams.map firstIdent) pos]) ∧
      (∀ lastP p elt, cfg.MethodParams.getLast? = some lastP →
        lastP.Typ = Expr.Ellipsis p elt → pos = p) ∧
      ((∀ f ∈ cfg.MethodParams, ∀ p elt, f.Typ ≠ Expr.Ellipsis p elt) → pos = NoPos) := by
  obtain ⟨pos, hfw, hlast, hnone⟩ :=
    forwardParams_of_named cfg.MethodParams (named_params h) [] NoPos
  refine ⟨pos, ?_, hlast, hnone⟩
  simp only [tracegen.MethodInvocation.Build, tracegen.NewMethodInvocation,
    tracegen.MethodInvocation.SetReceiver, hfw, MethodConfig.HasResults, List.nil_append]
  by_cases hres : cfg.MethodResults = []
  · simp [hres]
  · have hpos : 0 < cfg.MethodResults.length := List.length_pos.mpr hres
    simp [hres, hpos]

theorem tracing_body_of_leading (quote : String → String) (structName : String)
    (cfg : MethodConfig) (traceAlias ctxAlias fullName : String) (ctxField : Field)
    (c : String) (inv : Stmt)
    (hinv : ((tracegen.NewMethodInvocation cfg).SetReceiver
      (Expr.SelectorExpr (Expr.Ident "m") "next")).Build = some inv)
    (hfirst : cfg.MethodParams.head? = some ctxField)
    (hctx : ctxField.Typ = Expr.SelectorExpr (Expr.Ident ctxAlias) "Context")
    (hc : ctxField.Names.head? = some c) :
    ((tracegen.newTracingMethodBuilder structName cfg traceAlias ctxAlias fullName).Build
        quote).map FuncDecl.Body =
      some [Stmt.AssignStmt [Expr.Ident c, Expr.Ident "_span"] Token.DEFINE
              [Expr.CallExpr (Expr.SelectorExpr (Expr.Ident traceAlias) "StartSpan")
                [Expr.Ident c, Expr.BasicLit Token.STRING (quote fullName)] NoPos],
            Stmt.DeferStmt (Expr.CallExpr (Expr.SelectorExpr (Expr.Ident "_span") "End") []
              NoPos),
            inv] := by
  cases hp : cfg.MethodParams with
  | nil => simp [hp] at hfirst
  | cons p1 ps =>
    have hp1 : p1 = ctxField := by simpa [hp] using hfirst
    subst hp1
    simp [tracegen.tracingMethodBuilder.Build, tracegen.newTracingMethodBuilder, hp, hctx,
      getElem?_zero_of_head? _ _ hc, hinv, Method.Build, Method.AddStatement, Method.SetType,
      NewMethod, tracegen.newTraceMethodInvocation, tracegen.newEndSpanStmt]

theorem tracing_body_of_not_leading (quote : String → String) (structName : String)
    (cfg : MethodConfig) (traceAlias ctxAlias fullName : String) (inv : Stmt)
    (hinv : ((tracegen.NewMethodInvocation cfg).SetReceiver
      (Expr.SelectorExpr (Expr.Ident "m") "next")).Build = some inv)
    (hnot : ¬ cfg.leadingContext ctxAlias) :
    ((tracegen.newTracingMethodBuilder structName cfg traceAlias ctxAlias fullName).Build
        quote).map FuncDecl.Body = some [inv] := by
  cases hp : cfg.MethodParams with
  | nil =>
    simp [tracegen.tracingMethodBuilder.Build, tracegen.newTracingMethodBuilder, hp, hinv,
      Method.Build, Method.AddStatement, Method.SetType, NewMethod]
  | cons p1 ps =>
    have hne : p1.Typ ≠ Expr.SelectorExpr (Expr.Ident ctxAlias) "Context" := by
      intro hty
      exact hnot ⟨p1, by simp [hp], hty⟩
    cases hT : p1.Typ with
    | SelectorExpr x sel =>
      by_cases hsel : sel = "Context"
      · cases x with
        | Ident id =>
          have hid : ¬ (id = ctxAlias) := by
            intro h
            exact hne (by rw [hT, hsel, h])
          simp [tracegen.tracingMethodBuilder.Build, tracegen.newTracingMethodBuilder, hp, hT,
            hsel, hid, hinv, Method.Build, Method.AddStatement, Method.SetType, NewMethod]
        | _ =>
          simp [tracegen.tracingMethodBuilder.Build, tracegen.newTracingMethodBuilder, hp, hT,
            hsel, hinv, Method.Build, Method.AddStatement, Method.SetType, NewMethod]
      · simp [tracegen.tracingMethodBuilder.Build, tracegen.newTracingMethodBuilder, hp, hT,
          hsel, hinv, Method.Build, Method.AddStatement, Method.SetType, NewMethod]
    | _ =>
      simp [tracegen.tracingMethodBuilder.Build, tracegen.newTracingMethodBuilder, hp, hT,
        hinv, Method.Build, Method.AddStatement, Method.SetType, NewMethod]

theorem head?_firstName_of_named (cfg : MethodConfig) (h : cfg.Named) (p : Field)
    (hfirst : cfg.MethodParams.head? = some p) : p.Names.head? = some p.firstName := by
  have hmem : p ∈ cfg.MethodParams := List.mem_of_mem_head? hfirst
  have hne := named_params h p hmem
  unfold FieldOf.firstName
  cases hn : p.Names with
  | nil => exact absurd hn hne
  | cons a t => rfl

theorem tracing_body_cases (quote : String → String) (structName : String)
    (cfg : MethodConfig) (traceAlias ctxAlias fullName : String) (inv : Stmt)
    (hnamed : cfg.Named)
    (hinv : ((tracegen.NewMethodInvocation cfg).SetReceiver
      (Expr.SelectorExpr (Expr.Ident "m") "next")).Build = some inv) :
    (cfg.leadingContext ctxAlias ∧ ∃ c,
      ((tracegen.newTracingMethodBuilder structName cfg traceAlias ctxAlias fullName).Build
          quote).map FuncDecl.Body =
        some [Stmt.AssignStmt [Expr.Ident c, Expr.Ident "_span"] Token.DEFINE
                [Expr.CallExpr (Expr.SelectorExpr (Expr.Ident traceAlias) "StartSpan")
                  [Expr.Ident c, Expr.BasicLit Token.STRING (quote fullName)] NoPos],
              Stmt.DeferStmt (Expr.CallExpr (Expr.SelectorExpr (Expr.Ident "_span") "End") []
                NoPos),
              inv]) ∨
    (¬ cfg.leadingContext ctxAlias ∧
      ((tracegen.newTracingMethodBuilder structName cfg traceAlias ctxAlias fullName).Build
          quote).map FuncDecl.Body = some [inv]) := by
  by_cases hlead : cfg.leadingContext ctxAlias
  · left
    obtain ⟨p, hfirst, hctx⟩ := hlead
    exact ⟨⟨p, hfirst, hctx⟩, p.firstName,
      tracing_body_of_leading quote structName cfg traceAlias ctxAlias fullName p p.firstName
        inv hinv hfirst hctx (head?_firstName_of_named cfg hnamed p hfirst)⟩
  · right
    exact ⟨hlead, tracing_body_of_not_leading quote structName cfg traceAlias ctxAlias fullName
      inv hinv hlead⟩

/-- C5: the delegate call that `MethodInvocation.Build` of tracegen builds has
its `Ellipsis` equal to the position of the ellipsis type of the last
parameter when that parameter is variadic (so it is a valid, non-zero position
whenever that position is valid), and equal to `token.NoPos`, that is no
expansion marker, when no parameter is variadic. -/
theorem tracegen_call_carries_ellipsis (recv : Expr) (cfg : MethodConfig)
    (hnamed : cfg.Named) :
    ∃ pos,
      ((tracegen.NewMethodInvocation cfg).SetReceiver recv).Build =
        some (if cfg.MethodResults.isEmpty then
                Stmt.ExprStmt (Expr.CallExpr (Expr.SelectorExpr recv cfg.MethodName)
                  (cfg.MethodParams.map firstIdent) pos)
              else
                Stmt.ReturnStmt [Expr.CallExpr (Expr.SelectorExpr recv cfg.MethodName)
                  (cfg.MethodParams.map firstIdent) pos]) ∧
      (∀ lastP p elt, cfg.MethodParams.getLast? = some lastP →
        lastP.Typ = Expr.Ellipsis p elt →
        pos = p ∧ (Pos.IsValid p = true → Pos.IsValid pos = true ∧ pos ≠ 0)) ∧
      ((∀ f ∈ cfg.MethodParams, ∀ p elt, f.Typ ≠ Expr.Ellipsis p elt) →
        pos = NoPos ∧ Pos.IsValid pos = false) := by
  obtain ⟨pos, hbuild, hlast, hnone⟩ := tracegen_invocation_of_named recv cfg hnamed
  refine ⟨pos, hbuild, ?_, ?_⟩
  · intro lastP p elt hl hty
    have hp := hlast lastP p elt hl hty
    refine ⟨hp, fun hv => ?_⟩
    rw [hp]
    refine ⟨hv, ?_⟩
    intro h0
    rw [h0] at hv
    exact absurd hv (by decide)
  · intro hno
    have hp := hnone hno
    rw [hp]
    exact ⟨rfl, by decide⟩

/-- The witness of C5: `Logf(format string, args ...string)` with the ellipsis
at position 27 gives the call `m.next.Logf(format, args...)`, its `Ellipsis`
at 27. -/
theorem tracegen_call_carries_ellipsis_witness :
    logfMethod.Named ∧
    ((tracegen.NewMethodInvocation logfMethod).SetReceiver
        (Expr.SelectorExpr (Expr.Ident "m") "next")).Build =
      some (Stmt.ExprStmt
        (Expr.CallExpr (Expr.SelectorExpr (Expr.SelectorExpr (Expr.Ident "m") "next") "Logf")
          [Expr.Ident "format", Expr.Ident "args"] 27)) ∧
    Pos.IsValid 27 = true := by
  obtain ⟨pos, hbuild, hlast, _⟩ :=
    tracegen_call_carries_ellipsis (Expr.SelectorExpr (Expr.Ident "m") "next") logfMethod
      logfMethod_named
  have hp := (hlast { Names := ["args"], Typ := Expr.Ellipsis 27 (Expr.Ident "string") } 27
    (Expr.Ident "string") rfl rfl).1
  subst hp
  exact ⟨logfMethod_named, hbuild, by decide⟩

/-- C7: the tracing variant emits the span-start statement immediately followed
by the deferred span-end statement if and only if the method has a first
parameter whose type is the qualified reference `<contextPackageAlias>.Context`;
otherwise the body holds neither and is the delegate invocation alone. -/
theorem tracing_span_iff_leading_context (quote : String → String) (structName : String)
    (cfg : MethodConfig) (traceAlias ctxAlias fullName : String) (hnamed : cfg.Named) :
    ∃ decl inv,
      (tracegen.newTracingMethodBuilder structName cfg traceAlias ctxAlias fullName).Build
        quote = some decl ∧
      ((tracegen.NewMethodInvocation cfg).SetReceiver
        (Expr.SelectorExpr (Expr.Ident "m") "next")).Build = some inv ∧
      (hasSpanPair decl.Body = true ↔ cfg.leadingContext ctxAlias) ∧
      (cfg.leadingContext ctxAlias →
        ∃ start stop, decl.Body = [start, stop, inv] ∧
          start.isSpanStart = true ∧ stop.isSpanEnd = true) ∧
      (¬ cfg.leadingContext ctxAlias →
        decl.Body = [inv] ∧ ∀ s ∈ decl.Body, s.isSpanStart = false ∧ s.isSpanEnd = false) := by
  obtain ⟨pos, hinv, _, _⟩ :=
    tracegen_invocation_of_named (Expr.SelectorExpr (Expr.Ident "m") "next") cfg hnamed
  have hinvS : ∀ inv, ((tracegen.NewMethodInvocation cfg).SetReceiver
      (Expr.SelectorExpr (Expr.Ident "m") "next")).Build = some inv →
      inv.isSpanStart = false ∧ inv.isSpanEnd = false := by
    intro inv h
    rw [hinv] at h
    injection h with h
    subst h
    by_cases hres : cfg.MethodResults.isEmpty = true
    · simp [hres, Stmt.isSpanStart, Stmt.isSpanEnd]
    · simp [hres, Stmt.isSpanStart, Stmt.isSpanEnd]
  rcases tracing_body_cases quote structName cfg traceAlias ctxAlias fullName _ hnamed hinv with
    ⟨hlead, c, hbody⟩ | ⟨hnot, hbody⟩
  · obtain ⟨decl, hdecl, hb⟩ := Option.map_eq_some'.mp hbody
    refine ⟨decl, _, hdecl, hinv, ?_, ?_, ?_⟩
    · rw [hb]
      simp [hasSpanPair, Stmt.isSpanStart, Stmt.isSpanEnd, hlead]
    · intro _
      exact ⟨_, _, hb, by simp [Stmt.isSpanStart], by simp [Stmt.isSpanEnd]⟩
    · intro hnot
      exact absurd hlead hnot
  · obtain ⟨decl, hdecl, hb⟩ := Option.map_eq_some'.mp hbody
    refine ⟨decl, _, hdecl, hinv, ?_, ?_, ?_⟩
    · rw [hb]
      simp [hasSpanPair, hnot]
    · intro hlead
      exact absurd hlead hnot
    · intro _
      refine ⟨hb, ?_⟩
      rw [hb]
      intro s hs
      have hs' : s = _ := List.mem_singleton.mp hs
      subst hs'
      exact hinvS _ hinv

/-- The witness of C7: `Do(ctx context.Context, n int) (string, error)` with the
context alias `context` has a leading context parameter, and its body has the
span-start statement followed by the deferred span-end statement. -/
theorem tracing_span_iff_leading_context_witness :
    workerDo.Named ∧ workerDo.leadingContext "context" ∧
    ∃ decl,
      (tracegen.newTracingMethodBuilder "tracingWorker" workerDo "alias2" "context"
        "github.com/acme/jobs.Worker.Do").Build quotePlain = some decl ∧
      hasSpanPair decl.Body = true := by
  have hlead : workerDo.leadingContext "context" := ⟨_, rfl, rfl⟩
  obtain ⟨decl, inv, hdecl, _, hiff, _, _⟩ :=
    tracing_span_iff_leading_context quotePlain "tracingWorker" workerDo "alias2" "context"
      "github.com/acme/jobs.Worker.Do" workerDo_named
  exact ⟨workerDo_named, hlead, decl, hdecl, hiff.mpr hlead⟩

/-- C8: for a method named `M` with a leading context parameter named `c`, on
an interface named `I` at source location `P`, the builder that `AddMethod`
appends builds the body `c, _span := <traceAlias>.StartSpan(c, "P.I.M")`,
`defer _span.End()`, delegate invocation, in that order: the operation name is
`P + "." + I + "." + M`, the context parameter is the first argument and the
first assigned variable, and the end of the span is deferred before the
delegate is invoked. -/
theorem tracing_span_shape (quote : String → String) (m : tracegen.model)
    (cfg : MethodConfig) (ctxField : Field) (c : String)
    (hnamed : cfg.Named)
    (hfirst : cfg.MethodParams.head? = some ctxField)
    (hctx : ctxField.Typ = Expr.SelectorExpr (Expr.Ident m.contextPackageAlias) "Context")
    (hc : ctxField.Names.head? = some c) :
    ∃ b inv,
      (m.AddMethod cfg).1.fileBuilder.declarations =
        m.fileBuilder.declarations ++ [tracegen.Declaration.method b] ∧
      (m.AddMethod cfg).2 = none ∧
      ((tracegen.NewMethodInvocation cfg).SetReceiver
        (Expr.SelectorExpr (Expr.Ident "m") "next")).Build = some inv ∧
      (b.Build quote).map FuncDecl.Body =
        some [Stmt.AssignStmt [Expr.Ident c, Expr.Ident "_span"] Token.DEFINE
                [Expr.CallExpr (Expr.SelectorExpr (Expr.Ident m.tracePackageAlias) "StartSpan")
                  [Expr.Ident c,
                   Expr.BasicLit Token.STRING
                     (quote (m.interfacePath ++ "." ++ m.interfaceName ++ "." ++
                       cfg.MethodName))]
                  NoPos],
              Stmt.DeferStmt
                (Expr.CallExpr (Expr.SelectorExpr (Expr.Ident "_span") "End") [] NoPos),
              inv] := by
  obtain ⟨pos, hinv, _, _⟩ :=
    tracegen_invocation_of_named (Expr.SelectorExpr (Expr.Ident "m") "next") cfg hnamed
  exact ⟨_, _, rfl, rfl, hinv,
    tracing_body_of_leading quote m.structName cfg m.tracePackageAlias m.contextPackageAlias
      (m.interfacePath ++ "." ++ m.interfaceName ++ "." ++ cfg.MethodName) ctxField c _ hinv
      hfirst hctx hc⟩

/-- The witness of C8: `Do(ctx context.Context, n int) (string, error)` of the
interface `Worker` at `github.com/acme/jobs`. -/
theorem tracing_span_shape_witness :
    workerDo.Named ∧
    ∃ b,
      (workerModel.AddMethod workerDo).1.fileBuilder.declarations =
        [tracegen.Declaration.method b] ∧
      (b.Build quotePlain).map FuncDecl.Body =
        some [Stmt.AssignStmt [Expr.Ident "ctx", Expr.Ident "_span"] Token.DEFINE
                [Expr.CallExpr (Expr.SelectorExpr (Expr.Ident "alias2") "StartSpan")
                  [Expr.Ident "ctx",
                   Expr.BasicLit Token.STRING "\"github.com/acme/jobs.Worker.Do\""]
                  NoPos],
              Stmt.DeferStmt
                (Expr.CallExpr (Expr.SelectorExpr (Expr.Ident "_span") "End") [] NoPos),
              Stmt.ReturnStmt
                [Expr.CallExpr
                  (Expr.SelectorExpr (Expr.SelectorExpr (Expr.Ident "m") "next") "Do")
                  [Expr.Ident "ctx", Expr.Ident "n"] NoPos]] := by
  obtain ⟨b, inv, hdecls, _, hinv, hbody⟩ :=
    tracing_span_shape quotePlain workerModel workerDo
      { Names := ["ctx"], Typ := Expr.SelectorExpr (Expr.Ident "context") "Context" } "ctx"
      workerDo_named rfl rfl rfl
  have hinv' : inv = Stmt.ReturnStmt
      [Expr.CallExpr (Expr.SelectorExpr (Expr.SelectorExpr (Expr.Ident "m") "next") "Do")
        [Expr.Ident "ctx", Expr.Ident "n"] NoPos] := by
    have h : ((tracegen.NewMethodInvocation workerDo).SetReceiver
        (Expr.SelectorExpr (Expr.Ident "m") "next")).Build = some (Stmt.ReturnStmt
      [Expr.CallExpr (Expr.SelectorExpr (Expr.SelectorExpr (Expr.Ident "m") "next") "Do")
        [Expr.Ident "ctx", Expr.Ident "n"] NoPos]) := by
      simp [tracegen.MethodInvocation.Build, tracegen.NewMethodInvocation,
        tracegen.MethodInvocation.SetReceiver, workerDo, tracegen.forwardParams,
        MethodConfig.HasResults]
    rw [hinv] at h
    injection h
  subst hinv'
  exact ⟨workerDo_named, b, hdecls, hbody⟩

/-- C9: the last statement of the body built by the tracing variant is
`return m.next.M(args)`, the only return of the body, when the method has
results, and the bare expression statement `m.next.M(args)`, with no return
statement in the body, when it has none; `args` are the first names of the
parameters in declaration order, and no statement assigns the results of the
delegate to variables. -/
theorem tracing_delegate_call_last (quote : String → String) (structName : String)
    (cfg : MethodConfig) (traceAlias ctxAlias fullName : String) (hnamed : cfg.Named) :
    ∃ decl pos,
      (tracegen.newTracingMethodBuilder structName cfg traceAlias ctxAlias fullName).Build
        quote = some decl ∧
      decl.Body.getLast? =
        some (if cfg.MethodResults.isEmpty then
                Stmt.ExprStmt (Expr.CallExpr
                  (Expr.SelectorExpr (Expr.SelectorExpr (Expr.Ident "m") "next") cfg.MethodName)
                  (cfg.MethodParams.map firstIdent) pos)
              else
                Stmt.ReturnStmt [Expr.CallExpr
                  (Expr.SelectorExpr (Expr.SelectorExpr (Expr.Ident "m") "next") cfg.MethodName)
                  (cfg.MethodParams.map firstIdent) pos]) ∧
      decl.Body.countP Stmt.isReturn = (if cfg.MethodResults.isEmpty then 0 else 1) ∧
      (∀ s ∈ decl.Body, s.capturesDelegate = false) := by
  obtain ⟨pos, hinv, _, _⟩ :=
    tracegen_invocation_of_named (Expr.SelectorExpr (Expr.Ident "m") "next") cfg hnamed
  rcases tracing_body_cases quote structName cfg traceAlias ctxAlias fullName _ hnamed hinv with
    ⟨_, c, hbody⟩ | ⟨_, hbody⟩
  · obtain ⟨decl, hdecl, hb⟩ := Option.map_eq_some'.mp hbody
    refine ⟨decl, pos, hdecl, ?_, ?_, ?_⟩
    · rw [hb]
      simp
    · rw [hb]
      by_cases hres : cfg.MethodResults.isEmpty = true
      · simp [hres, Stmt.isReturn, List.countP_cons]
      · simp [hres, Stmt.isReturn, List.countP_cons]
    · rw [hb]
      intro s hs
      simp only [List.mem_cons, List.mem_singleton, List.not_mem_nil, or_false] at hs
      rcases hs with rfl | rfl | rfl
      · simp [Stmt.capturesDelegate, Expr.isDelegateCall]
      · simp [Stmt.capturesDelegate]
      · by_cases hres : cfg.MethodResults.isEmpty = true
        · simp [hres, Stmt.capturesDelegate]
        · simp [hres, Stmt.capturesDelegate]
  · obtain ⟨decl, hdecl, hb⟩ := Option.map_eq_some'.mp hbody
    refine ⟨decl, pos, hdecl, ?_, ?_, ?_⟩
    · rw [hb]
      simp
    · rw [hb]
      by_cases hres : cfg.MethodResults.isEmpty = true
      · simp [hres, Stmt.isReturn, List.countP_cons]
      · simp [hres, Stmt.isReturn, List.countP_cons]
    · rw [hb]
      intro s hs
      simp only [List.mem_singleton] at hs
      subst hs
      by_cases hres : cfg.MethodResults.isEmpty = true
      · simp [hres, Stmt.capturesDelegate]
      · simp [hres, Stmt.capturesDelegate]

/-- The witness of C9: for `Close()`, without results, the body built by the
tracing variant ends with the bare call `m.next.Close()` and has no return
statement. -/
theorem tracing_delegate_call_last_witness :
    closeMethod.Named ∧
    ∃ decl pos,
      (tracegen.newTracingMethodBuilder "tracingCloser" closeMethod "alias2" "context"
        "github.com/acme/jobs.Closer.Close").Build quotePlain = some decl ∧
      decl.Body.getLast? =
        some (Stmt.ExprStmt (Expr.CallExpr
          (Expr.SelectorExpr (Expr.SelectorExpr (Expr.Ident "m") "next") "Close") [] pos)) ∧
      decl.Body.countP Stmt.isReturn = 0 := by
  obtain ⟨decl, pos, hdecl, hlast, hcount, _⟩ :=
    tracing_delegate_call_last quotePlain "tracingCloser" closeMethod "alias2" "context"
      "github.com/acme/jobs.Closer.Close" closeMethod_named
  exact ⟨closeMethod_named, decl, pos, hdecl, hlast, hcount⟩

/-! ### Monitoring variant -/

/-- C10: for every delegate, every state and every argument list, `DoWork` and
`DoWorkCtx` of `monitoringGoKitService` return exactly the results of the
delegate, leave the state that the delegate leaves, and make exactly these
calls, in this order: one `Add(1)` on `totalOps` with the label values
`"operation"`, the operation name (`"do_work"`, `"do_work_ctx"`); one call of
the delegate with the arguments in order; one `Observe` on `opsDuration` with
the same label values, whether the error of the delegate is nil or not; and
then one `Add(1)` on `failedOps` with the same label values when the error is
not nil, and nothing when it is nil. -/
theorem monitoring_calls_exact {σ κ : Type} (m : examplesmws.monitoringGoKitService σ κ)
    (w : examplesmws.World σ κ) (n : Int) (str : String) (ctx : κ) :
    ((m.DoWork n str w).1 = (m.next.DoWork n str w.inner).1 ∧
     (m.DoWork n str w).2.inner = (m.next.DoWork n str w.inner).2 ∧
     (m.DoWork n str w).2.calls =
       w.calls ++
         [examplesmws.Call.add
            { name := m.totalOps.name
              labelValues := m.totalOps.labelValues ++ ["operation", "do_work"] } 1,
          examplesmws.Call.DoWork n str,
          examplesmws.Call.observe
            { name := m.opsDuration.name
              labelValues := m.opsDuration.labelValues ++ ["operation", "do_work"] }
            (m.next.now (m.next.DoWork n str w.inner).2 - m.next.now w.inner)] ++
         (match (m.next.DoWork n str w.inner).1.2 with
          | none => []
          | some _ =>
            [examplesmws.Call.add
               { name := m.failedOps.name
                 labelValues := m.failedOps.labelValues ++ ["operation", "do_work"] } 1])) ∧
    ((m.DoWorkCtx ctx n str w).1 = (m.next.DoWorkCtx ctx n str w.inner).1 ∧
     (m.DoWorkCtx ctx n str w).2.inner = (m.next.DoWorkCtx ctx n str w.inner).2 ∧
     (m.DoWorkCtx ctx n str w).2.calls =
       w.calls ++
         [examplesmws.Call.add
            { name := m.totalOps.name
              labelValues := m.totalOps.labelValues ++ ["operation", "do_work_ctx"] } 1,
          examplesmws.Call.DoWorkCtx ctx n str,
          examplesmws.Call.observe
            { name := m.opsDuration.name
              labelValues := m.opsDuration.labelValues ++ ["operation", "do_work_ctx"] }
            (m.next.now (m.next.DoWorkCtx ctx n str w.inner).2 - m.next.now w.inner)] ++
         (match (m.next.DoWorkCtx ctx n str w.inner).1.2 with
          | none => []
          | some _ =>
            [examplesmws.Call.add
               { name := m.failedOps.name
                 labelValues := m.failedOps.labelValues ++ ["operation", "do_work_ctx"] }
               1])) := by
  refine ⟨⟨rfl, ?_, ?_⟩, ⟨rfl, ?_, ?_⟩⟩
  · cases h : (m.next.DoWork n str w.inner).1.2 <;>
      simp [examplesmws.monitoringGoKitService.DoWork, examplesmws.GoKitService.callDoWork,
        examplesmws.Counter.Add, examplesmws.Histogram.Observe, h]
  · cases h : (m.next.DoWork n str w.inner).1.2 <;>
      simp [examplesmws.monitoringGoKitService.DoWork, examplesmws.GoKitService.callDoWork,
        examplesmws.Counter.Add, examplesmws.Histogram.Observe, examplesmws.Counter.With,
        examplesmws.Histogram.With, h]
  · cases h : (m.next.DoWorkCtx ctx n str w.inner).1.2 <;>
      simp [examplesmws.monitoringGoKitService.DoWorkCtx,
        examplesmws.GoKitService.callDoWorkCtx, examplesmws.Counter.Add,
        examplesmws.Histogram.Observe, h]
  · cases h : (m.next.DoWorkCtx ctx n str w.inner).1.2 <;>
      simp [examplesmws.monitoringGoKitService.DoWorkCtx,
        examplesmws.GoKitService.callDoWorkCtx, examplesmws.Counter.Add,
        examplesmws.Histogram.Observe, examplesmws.Counter.With, examplesmws.Histogram.With, h]

/-! ### Backends of the logging variant -/

theorem contextArgName_of_not_leading (structName : String) (cfg : MethodConfig)
    (ctxAlias : String) (info : loggerInfo) (hnot : ¬ cfg.leadingContext ctxAlias) :
    (NewLoggingMethodBuilder structName cfg ctxAlias info).contextArgName = some ("", false) := by
  unfold LoggingMethodBuilder.contextArgName NewLoggingMethodBuilder
  cases hp : cfg.MethodParams with
  | nil => rfl
  | cons p1 ps =>
    have hne : p1.Typ ≠ Expr.SelectorExpr (Expr.Ident ctxAlias) "Context" := by
      intro hty
      exact hnot ⟨p1, by simp [hp], hty⟩
    cases hT : p1.Typ with
    | SelectorExpr x sel =>
      by_cases hsel : sel = "Context"
      · cases x with
        | Ident id =>
          have hid : ¬ (id = ctxAlias) := by
            intro h
            exact hne (by rw [hT, hsel, h])
          simp [hT, hsel, hid]
        | _ => simp [hT, hsel]
      · simp [hT, hsel]
    | _ => simp [hT]

theorem contextArgName_cases (structName : String) (cfg : MethodConfig) (ctxAlias : String)
    (info : loggerInfo) (hnamed : cfg.Named) :
    (cfg.leadingContext ctxAlias ∧ ∃ p, cfg.MethodParams.head? = some p ∧
      (NewLoggingMethodBuilder structName cfg ctxAlias info).contextArgName =
        some (p.firstName, true)) ∨
    (¬ cfg.leadingContext ctxAlias ∧
      (NewLoggingMethodBuilder structName cfg ctxAlias info).contextArgName =
        some ("", false)) := by
  by_cases hlead : cfg.leadingContext ctxAlias
  · left
    obtain ⟨p, hfirst, hctx⟩ := hlead
    exact ⟨⟨p, hfirst, hctx⟩, p, hfirst,
      contextArgName_of_leading structName cfg ctxAlias info p p.firstName hfirst hctx
        (head?_firstName_of_named cfg hnamed p hfirst)⟩
  · right
    exact ⟨hlead, contextArgName_of_not_leading structName cfg ctxAlias info hlead⟩

/-- C11: for every method, error-result name and context alias, the
if-statements that the go_kit_log and the zap builders make have the same
guard `<e> != nil`, four body statements each, and the same second and third
body statements: the query `_more := m.fields(c, e)` and the merge
`if len(_more) > 0 { _fields = append(_fields, _more...) }` when the method has
a leading context parameter, two empty statements when it has none; the first
statements differ and the last statements differ. -/
theorem backends_share_control_flow (quote : String → String) (structName : String)
    (cfg : MethodConfig) (ctxAlias : String) (info : loggerInfo) (methodName e : String)
    (hnamed : cfg.Named) :
    ∃ firstK firstZ query merge lastK lastZ,
      (NewLoggingMethodBuilder structName cfg ctxAlias info).conditionalLogMessageStatementKitLog
          quote methodName e =
        some (Stmt.IfStmt none (Expr.BinaryExpr (Expr.Ident e) Token.NEQ (Expr.Ident "nil"))
          [firstK, query, merge, lastK] none) ∧
      (NewLoggingMethodBuilder structName cfg ctxAlias info).conditionalLogMessageStatementZap
          quote methodName e =
        some (Stmt.IfStmt none (Expr.BinaryExpr (Expr.Ident e) Token.NEQ (Expr.Ident "nil"))
          [firstZ, query, merge, lastZ] none) ∧
      ((cfg.leadingContext ctxAlias ∧ ∃ p, cfg.MethodParams.head? = some p ∧
          query = Stmt.AssignStmt [Expr.Ident "_more"] Token.DEFINE
            [Expr.CallExpr (Expr.SelectorExpr (Expr.Ident "m") "fields")
              [Expr.Ident p.firstName, Expr.Ident e] NoPos] ∧
          merge = Stmt.IfStmt none
            (Expr.BinaryExpr (Expr.CallExpr (Expr.Ident "len") [Expr.Ident "_more"] NoPos)
              Token.GTR (Expr.Ident "0"))
            [Stmt.AssignStmt [Expr.Ident "_fields"] Token.ASSIGN
              [Expr.CallExpr (Expr.Ident "append")
                [Expr.Ident "_fields", Expr.Ident "_more..."] NoPos]]
            none) ∨
       (¬ cfg.leadingContext ctxAlias ∧ query = Stmt.EmptyStmt ∧ merge = Stmt.EmptyStmt)) ∧
      firstK ≠ firstZ ∧ lastK ≠ lastZ := by
  rcases contextArgName_cases structName cfg ctxAlias info hnamed with
    ⟨hlead, p, hfirst, hc⟩ | ⟨hnot, hc⟩
  · have hK := kitlog_statement_eq quote _ methodName e _ _ hc
    have hZ := zap_statement_eq quote _ methodName e _ _ hc
    simp only [if_true] at hK hZ
    refine ⟨_, _, _, _, _, _, hK, hZ, Or.inl ⟨hlead, p, hfirst, rfl, rfl⟩, ?_, ?_⟩
    · simp
    · simp
  · have hK := kitlog_statement_eq quote _ methodName e _ _ hc
    have hZ := zap_statement_eq quote _ methodName e _ _ hc
    simp only [Bool.false_eq_true, if_false] at hK hZ
    refine ⟨_, _, _, _, _, _, hK, hZ, Or.inr ⟨hnot, rfl, rfl⟩, ?_, ?_⟩
    · simp
    · simp

/-- The witness of C11: `Do(ctx context.Context, n int) (string, error)` with
the error result `result2`: both blocks have the guard `result2 != nil` and
share the query and the merge. -/
theorem backends_share_control_flow_witness :
    workerDo.Named ∧
    ∃ firstK firstZ query merge lastK lastZ,
      (NewLoggingMethodBuilder "errorLoggingWorker" workerDo "context"
          zapInfo).conditionalLogMessageStatementKitLog quotePlain "Do" "result2" =
        some (Stmt.IfStmt none
          (Expr.BinaryExpr (Expr.Ident "result2") Token.NEQ (Expr.Ident "nil"))
          [firstK, query, merge, lastK] none) ∧
      (NewLoggingMethodBuilder "errorLoggingWorker" workerDo "context"
          zapInfo).conditionalLogMessageStatementZap quotePlain "Do" "result2" =
        some (Stmt.IfStmt none
          (Expr.BinaryExpr (Expr.Ident "result2") Token.NEQ (Expr.Ident "nil"))
          [firstZ, query, merge, lastZ] none) ∧
      firstK ≠ firstZ ∧ lastK ≠ lastZ := by
  obtain ⟨firstK, firstZ, query, merge, lastK, lastZ, hK, hZ, _, h1, h2⟩ :=
    backends_share_control_flow quotePlain "errorLoggingWorker" workerDo "context" zapInfo
      "Do" "result2" workerDo_named
  exact ⟨workerDo_named, firstK, firstZ, query, merge, lastK, lastZ, hK, hZ, h1, h2⟩

/-- C12: with the zap backend, for every method name `M` and error-result name
`e`, the guarded block first builds `_fields` as a list of the field type of the
backend holding exactly `<zapAlias>.String("method", "M")` and
`<zapAlias>.Error(e)`, in that order, and last calls
`m.logger.Error("M failed", _fields...)`; the description that
`getZapLoggerInfo` returns has the name `zap`, the alias of `go.uber.org/zap` as
`<zapAlias>` and `<alias of zapcore>.Field` as field type. -/
theorem zap_fields_and_call {μ : Type} (quote : String → String) (structName : String)
    (cfg : MethodConfig) (ctxAlias : String) (info : loggerInfo) (methodName e : String)
    (AddImport : μ → String → String → String × μ) (m : μ) (hnamed : cfg.Named) :
    (∃ query merge,
      (NewLoggingMethodBuilder structName cfg ctxAlias info).conditionalLogMessageStatementZap
          quote methodName e =
        some (Stmt.IfStmt none (Expr.BinaryExpr (Expr.Ident e) Token.NEQ (Expr.Ident "nil"))
          [Stmt.AssignStmt [Expr.Ident "_fields"] Token.DEFINE
             [Expr.CompositeLit (Expr.ArrayType Expr.Nil info.fieldsType)
               [Expr.CallExpr (Expr.SelectorExpr (Expr.Ident info.packageAlias) "String")
                  [Expr.BasicLit Token.STRING "\"method\"",
                   Expr.BasicLit Token.STRING (quote methodName)] NoPos,
                Expr.CallExpr (Expr.SelectorExpr (Expr.Ident info.packageAlias) "Error")
                  [Expr.Ident e] NoPos]],
           query, merge,
           Stmt.ExprStmt (Expr.CallExpr
             (Expr.SelectorExpr (Expr.SelectorExpr (Expr.Ident "m") "logger") "Error")
             [Expr.BasicLit Token.STRING ("\"" ++ methodName ++ " failed\""),
              Expr.Ident "_fields..."] NoPos)]
          none)) ∧
    (getZapLoggerInfo AddImport m).1.name = "zap" ∧
    (getZapLoggerInfo AddImport m).1.packageAlias = (AddImport m "" "go.uber.org/zap").1 ∧
    (getZapLoggerInfo AddImport m).1.fieldsType =
      Expr.SelectorExpr
        (Expr.Ident
          (AddImport (AddImport m "" "go.uber.org/zap").2 "" "go.uber.org/zap/zapcore").1)
        "Field" := by
  obtain ⟨c, ok, hc⟩ := contextArgName_of_named structName cfg ctxAlias info hnamed
  exact ⟨⟨_, _, zap_statement_eq quote _ methodName e c ok hc⟩, rfl, rfl, rfl⟩

/-- The witness of C12: `Do(ctx context.Context, n int) (string, error)` with
the zap description of aliases `alias2` and `alias3`: the block builds
`_fields := []alias3.Field{alias2.String("method", "Do"), alias2.Error(result2)}`
and calls `m.logger.Error("Do failed", _fields...)`. -/
theorem zap_fields_and_call_witness :
    workerDo.Named ∧
    ∃ query merge,
      (NewLoggingMethodBuilder "errorLoggingWorker" workerDo "context"
          zapInfo).conditionalLogMessageStatementZap quotePlain "Do" "result2" =
        some (Stmt.IfStmt none
          (Expr.BinaryExpr (Expr.Ident "result2") Token.NEQ (Expr.Ident "nil"))
          [Stmt.AssignStmt [Expr.Ident "_fields"] Token.DEFINE
             [Expr.CompositeLit
               (Expr.ArrayType Expr.Nil (Expr.SelectorExpr (Expr.Ident "alias3") "Field"))
               [Expr.CallExpr (Expr.SelectorExpr (Expr.Ident "alias2") "String")
                  [Expr.BasicLit Token.STRING "\"method\"",
                   Expr.BasicLit Token.STRING "\"Do\""] NoPos,
                Expr.CallExpr (Expr.SelectorExpr (Expr.Ident "alias2") "Error")
                  [Expr.Ident "result2"] NoPos]],
           query, merge,
           Stmt.ExprStmt (Expr.CallExpr
             (Expr.SelectorExpr (Expr.SelectorExpr (Expr.Ident "m") "logger") "Error")
             [Expr.BasicLit Token.STRING "\"Do failed\"",
              Expr.Ident "_fields..."] NoPos)]
          none) :=
  ⟨workerDo_named,
    (zap_fields_and_call quotePlain "errorLoggingWorker" workerDo "context" zapInfo "Do"
      "result2" sampleAddImport [] workerDo_named).1⟩

/-! ### Order of parameters and results -/

theorem firstIdents_of_single (fs : List Field) (h : ∀ f ∈ fs, f.Names.length = 1) :
    fs.map firstIdent = (fieldNames fs).map Expr.Ident ∧
    (fieldNames fs).length = fs.length := by
  induction fs with
  | nil => exact ⟨rfl, rfl⟩
  | cons f fs ih =>
    obtain ⟨ih1, ih2⟩ := ih (fun g hg => h g (List.mem_cons_of_mem f hg))
    have hf := h f (List.mem_cons_self f fs)
    cases hn : f.Names with
    | nil => simp [hn] at hf
    | cons a t =>
      have ht : t = [] := by
        cases t with
        | nil => rfl
        | cons b u => simp [hn] at hf
      subst ht
      simp [fieldNames, hn, firstIdent, FieldOf.firstName, ih1, ih2]

theorem named_of_single (cfg : MethodConfig)
    (h : ∀ f ∈ cfg.MethodParams ++ cfg.MethodResults, f.Names.length = 1) : cfg.Named := by
  intro f hf hnil
  have := h f hf
  simp [hnil] at this

/-- C13: for a method whose parameters and results each carry one name, the
delegate invocation of logen passes exactly the parameter names as arguments,
one per parameter and in declaration order, and, when the method has results,
assigns to exactly the result names, one per result and in declaration order;
the return statement lists the same identifiers, in the same order, as the
left-hand side of that assignment. -/
theorem logen_order_preserved (recv : Expr) (cfg : MethodConfig)
    (hone : ∀ f ∈ cfg.MethodParams ++ cfg.MethodResults, f.Names.length = 1) :
    ((NewMethodInvocation cfg).SetReceiver recv).Build =
      some (if cfg.MethodResults.isEmpty then
              Stmt.ExprStmt (Expr.CallExpr (Expr.SelectorExpr recv cfg.MethodName)
                ((fieldNames cfg.MethodParams).map Expr.Ident) NoPos)
            else
              Stmt.AssignStmt ((fieldNames cfg.MethodResults).map Expr.Ident) Token.DEFINE
                [Expr.CallExpr (Expr.SelectorExpr recv cfg.MethodName)
                  ((fieldNames cfg.MethodParams).map Expr.Ident) NoPos]) ∧
    (NewReturnResults cfg).Build =
      some (Stmt.ReturnStmt ((fieldNames cfg.MethodResults).map Expr.Ident)) ∧
    (fieldNames cfg.MethodParams).length = cfg.MethodParams.length ∧
    (fieldNames cfg.MethodResults).length = cfg.MethodResults.length := by
  have hnamed := named_of_single cfg hone
  obtain ⟨hp1, hp2⟩ := firstIdents_of_single cfg.MethodParams
    (fun f hf => hone f (List.mem_append_left _ hf))
  obtain ⟨hr1, hr2⟩ := firstIdents_of_single cfg.MethodResults
    (fun f hf => hone f (List.mem_append_right _ hf))
  refine ⟨?_, ?_, hp2, hr2⟩
  · rw [← hp1, ← hr1]
    exact logen_invocation_of_named recv cfg hnamed
  · rw [← hr1]
    exact logen_return_of_named cfg hnamed

/-- The witness of C13: `Do(ctx context.Context, n int) (string, error)`:
`result1, result2 := m.next.Do(ctx, n)` and `return result1, result2`. -/
theorem logen_order_preserved_witness :
    (∀ f ∈ workerDo.MethodParams ++ workerDo.MethodResults, f.Names.length = 1) ∧
    ((NewMethodInvocation workerDo).SetReceiver
        (Expr.SelectorExpr (Expr.Ident "m") "next")).Build =
      some (Stmt.AssignStmt [Expr.Ident "result1", Expr.Ident "result2"] Token.DEFINE
        [Expr.CallExpr (Expr.SelectorExpr (Expr.SelectorExpr (Expr.Ident "m") "next") "Do")
          [Expr.Ident "ctx", Expr.Ident "n"] NoPos]) ∧
    (NewReturnResults workerDo).Build =
      some (Stmt.ReturnStmt [Expr.Ident "result1", Expr.Ident "result2"]) := by
  have hone : ∀ f ∈ workerDo.MethodParams ++ workerDo.MethodResults, f.Names.length = 1 := by
    intro f hf
    simp [workerDo] at hf
    rcases hf with rfl | rfl | rfl | rfl <;> rfl
  have h := logen_order_preserved (Expr.SelectorExpr (Expr.Ident "m") "next") workerDo hone
  exact ⟨hone, h.1, h.2.1⟩

/-! ### Leading context in the logging variant -/

/-- C14: `contextArgName` returns the name of the first parameter and `true`
if and only if the method has a first parameter whose type is the qualified
reference `<contextPackageAlias>.Context`, and `("", false)` otherwise; in the
first case the guarded block of both backends has, as second and third
statements, `_more := m.fields(ctx, err)` and the conditional append of
`_more`; in the second case both blocks have two empty statements in their
place and no reference to the fields-provider at all. -/
theorem leading_context_detection {μ : Type} (quote : String → String)
    (structName : String) (cfg : MethodConfig) (ctxAlias : String) (info : loggerInfo)
    (AddImport : μ → String → String → String × μ) (m : μ) (methodName e : String)
    (hnamed : cfg.Named) :
    ((∃ c, (NewLoggingMethodBuilder structName cfg ctxAlias info).contextArgName =
        some (c, true)) ↔ cfg.leadingContext ctxAlias) ∧
    ((cfg.leadingContext ctxAlias ∧ ∃ p firstK lastK firstZ lastZ,
        cfg.MethodParams.head? = some p ∧
        (NewLoggingMethodBuilder structName cfg ctxAlias info).contextArgName =
          some (p.firstName, true) ∧
        (NewLoggingMethodBuilder structName cfg ctxAlias
            info).conditionalLogMessageStatementKitLog quote methodName e =
          some (Stmt.IfStmt none
            (Expr.BinaryExpr (Expr.Ident e) Token.NEQ (Expr.Ident "nil"))
            [firstK,
             Stmt.AssignStmt [Expr.Ident "_more"] Token.DEFINE
               [Expr.CallExpr (Expr.SelectorExpr (Expr.Ident "m") "fields")
                 [Expr.Ident p.firstName, Expr.Ident e] NoPos],
             Stmt.IfStmt none
               (Expr.BinaryExpr (Expr.CallExpr (Expr.Ident "len") [Expr.Ident "_more"] NoPos)
                 Token.GTR (Expr.Ident "0"))
               [Stmt.AssignStmt [Expr.Ident "_fields"] Token.ASSIGN
                 [Expr.CallExpr (Expr.Ident "append")
                   [Expr.Ident "_fields", Expr.Ident "_more..."] NoPos]]
               none,
             lastK] none) ∧
        (NewLoggingMethodBuilder structName cfg ctxAlias
            (getZapLoggerInfo AddImport m).1).conditionalLogMessageStatementZap
            quote methodName e =
          some (Stmt.IfStmt none
            (Expr.BinaryExpr (Expr.Ident e) Token.NEQ (Expr.Ident "nil"))
            [firstZ,
             Stmt.AssignStmt [Expr.Ident "_more"] Token.DEFINE
               [Expr.CallExpr (Expr.SelectorExpr (Expr.Ident "m") "fields")
                 [Expr.Ident p.firstName, Expr.Ident e] NoPos],
             Stmt.IfStmt none
               (Expr.BinaryExpr (Expr.CallExpr (Expr.Ident "len") [Expr.Ident "_more"] NoPos)
                 Token.GTR (Expr.Ident "0"))
               [Stmt.AssignStmt [Expr.Ident "_fields"] Token.ASSIGN
                 [Expr.CallExpr (Expr.Ident "append")
                   [Expr.Ident "_fields", Expr.Ident "_more..."] NoPos]]
               none,
             lastZ] none)) ∨
     (¬ cfg.leadingContext ctxAlias ∧
        (NewLoggingMethodBuilder structName cfg ctxAlias info).contextArgName =
          some ("", false) ∧
        ∃ firstK lastK firstZ lastZ,
          (NewLoggingMethodBuilder structName cfg ctxAlias
              info).conditionalLogMessageStatementKitLog quote methodName e =
            some (Stmt.IfStmt none
              (Expr.BinaryExpr (Expr.Ident e) Token.NEQ (Expr.Ident "nil"))
              [firstK, Stmt.EmptyStmt, Stmt.EmptyStmt, lastK] none) ∧
          (NewLoggingMethodBuilder structName cfg ctxAlias
              (getZapLoggerInfo AddImport m).1).conditionalLogMessageStatementZap
              quote methodName e =
            some (Stmt.IfStmt none
              (Expr.BinaryExpr (Expr.Ident e) Token.NEQ (Expr.Ident "nil"))
              [firstZ, Stmt.EmptyStmt, Stmt.EmptyStmt, lastZ] none) ∧
          stmtsReferToProvider [firstK, Stmt.EmptyStmt, Stmt.EmptyStmt, lastK] = false ∧
          stmtsReferToProvider [firstZ, Stmt.EmptyStmt, Stmt.EmptyStmt, lastZ] = false)) := by
  rcases contextArgName_cases structName cfg ctxAlias info hnamed with
    ⟨hlead, p, hfirst, hc⟩ | ⟨hnot, hc⟩
  · refine ⟨⟨fun _ => hlead, fun _ => ⟨_, hc⟩⟩, Or.inl ⟨hlead, ?_⟩⟩
    obtain ⟨q, hq, hctx⟩ := hlead
    have hpq : q = p := by
      rw [hfirst] at hq
      injection hq with hq
      exact hq.symm
    subst hpq
    have hcZ := contextArgName_of_leading structName cfg ctxAlias
      (getZapLoggerInfo AddImport m).1 q q.firstName hfirst hctx
      (head?_firstName_of_named cfg hnamed q hfirst)
    have hK := kitlog_statement_eq quote _ methodName e _ _ hc
    have hZ := zap_statement_eq quote _ methodName e _ _ hcZ
    simp only [if_true] at hK hZ
    exact ⟨q, _, _, _, _, hfirst, hc, hK, hZ⟩
  · refine ⟨⟨?_, fun h => absurd h hnot⟩, Or.inr ⟨hnot, hc, ?_⟩⟩
    · rintro ⟨c, hc'⟩
      rw [hc] at hc'
      simp at hc'
    · have hcZ := contextArgName_of_not_leading structName cfg ctxAlias
        (getZapLoggerInfo AddImport m).1 hnot
      have hK := kitlog_statement_eq quote _ methodName e _ _ hc
      have hZ := zap_statement_eq quote _ methodName e _ _ hcZ
      simp only [Bool.false_eq_true, if_false] at hK hZ
      refine ⟨_, _, _, _, hK, hZ, ?_, ?_⟩
      · simp [stmtsReferToProvider, Stmt.refersToProvider, Expr.refersToProvider,
          exprsReferToProvider, Expr.isProviderRef]
      · simp [stmtsReferToProvider, Stmt.refersToProvider, Expr.refersToProvider,
          exprsReferToProvider, Expr.isProviderRef, getZapLoggerInfo,
          NewLoggingMethodBuilder]

/-- The witness of C14: `Do(ctx context.Context, n int) (string, error)` with
the context alias `context` has a leading context, and `contextArgName`
returns `("ctx", true)`; with the alias `alias4` it has none. -/
theorem leading_context_detection_witness :
    workerDo.Named ∧
    ((∃ c, (NewLoggingMethodBuilder "errorLoggingWorker" workerDo "context"
        kitLogInfo).contextArgName = some (c, true)) ↔ workerDo.leadingContext "context") ∧
    workerDo.leadingContext "context" ∧
    (NewLoggingMethodBuilder "errorLoggingWorker" workerDo "context"
        kitLogInfo).contextArgName = some ("ctx", true) :=
  ⟨workerDo_named,
    (leading_context_detection quotePlain "errorLoggingWorker" workerDo "context" kitLogInfo
      sampleAddImport [] "Do" "result2" workerDo_named).1,
    ⟨_, rfl, rfl⟩, rfl⟩

/-! ### Constructor of the logging variant -/

/-- C15: for every interface name `I`, the constructor that logen builds is
the function `NewErrorLoggingI` with exactly three parameters, in order `next`
of the wrapped interface type, `logger` of the logger type of the backend and
the variadic `fields` of fields-providers, and one result of the wrapped
interface type; its body binds `f` to the default provider that returns nil,
assigns `fields[0]` to `f` under the condition `len(fields) > 0` and no other,
and returns `&errorLoggingI{next: next, logger: logger, fields: f}`. -/
theorem logen_constructor_shape (fieldsFuncType : String → loggerInfo → Expr)
    (packageName interfaceName contextPackageName : String) (info : loggerInfo) :
    ((newConstructorBuilder packageName interfaceName contextPackageName info).Build
        fieldsFuncType).Name = "NewErrorLogging" ++ interfaceName ∧
    ((newConstructorBuilder packageName interfaceName contextPackageName info).Build
        fieldsFuncType).Recv = [] ∧
    ((newConstructorBuilder packageName interfaceName contextPackageName info).Build
        fieldsFuncType).Typ =
      some
        { Params :=
            [{ Names := ["next"]
               Typ := Expr.SelectorExpr (Expr.Ident packageName) interfaceName },
             { Names := ["logger"], Typ := info.loggerType },
             { Names := ["fields"]
               Typ := Expr.Ellipsis NoPos (fieldsFuncType contextPackageName info) }]
          Results :=
            [{ Names := [""]
               Typ := Expr.SelectorExpr (Expr.Ident packageName) interfaceName }] } ∧
    ((newConstructorBuilder packageName interfaceName contextPackageName info).Build
        fieldsFuncType).Body =
      [Stmt.AssignStmt [Expr.Ident "f"] Token.DEFINE
         [Expr.CompositeLit (fieldsFuncType contextPackageName info)
           [Expr.Ident "return nil"]],
       Stmt.IfStmt none
         (Expr.BinaryExpr (Expr.CallExpr (Expr.Ident "len") [Expr.Ident "fields"] NoPos)
           Token.GTR (Expr.BasicLit Token.INT "0"))
         [Stmt.AssignStmt [Expr.Ident "f"] Token.ASSIGN
           [Expr.IndexExpr (Expr.Ident "fields") (Expr.BasicLit Token.INT "0")]]
         none,
       Stmt.ReturnStmt
         [Expr.Ident ("&errorLogging" ++ interfaceName ++
           "\x7bnext: next, logger: logger, fields: f\x7d")]] :=
  ⟨rfl, rfl, rfl, rfl⟩

/-! ### Arguments of logen -/

theorem isLoggerSupported_iff (s : String) :
    isLoggerSupported s = true ↔ s = "go_kit_log" ∨ s = "zap" := by
  unfold isLoggerSupported supportedLoggers
  simp only [List.any_cons, List.any_nil, Bool.or_false, Bool.or_eq_true, beq_iff_eq]
  constructor
  · rintro (h | h)
    · exact Or.inl h.symm
    · exact Or.inr h.symm
  · rintro (h | h)
    · exact Or.inl h.symm
    · exact Or.inr h.symm

/-- C16, as stated, fails: with the four positional arguments `dir`, `Worker`,
`bogus`, `extra` a third argument is present and is not a supported backend,
yet `parseArgs` does not fail and selects `go_kit_log`; with `dir`, `Worker`,
`zap`, `extra` the third argument is a supported backend, yet the selected
logger is `go_kit_log`, not `zap`. -/
theorem parseArgs_ignores_third_of_four :
    isLoggerSupported "bogus" = false ∧
    parseArgs Except.ok ["dir", "Worker", "bogus", "extra"] =
      Except.ok ("dir", "Worker", "go_kit_log") ∧
    isLoggerSupported "zap" = true ∧
    parseArgs Except.ok ["dir", "Worker", "zap", "extra"] =
      Except.ok ("dir", "Worker", "go_kit_log") := by
  refine ⟨by decide, rfl, by decide, rfl⟩

/-- C16, amended: when the absolute path of the first argument is found,
`parseArgs` fails with `not enough arguments provided` on fewer than two
positional arguments, selects the first-listed backend `go_kit_log` on exactly
two, and on exactly three returns the third as the selected logger when it is
`go_kit_log` or `zap` and otherwise fails with `unsupported logger type: `
followed by the third argument. -/
theorem parseArgs_selector (abs : String → Except String String) (args : List String)
    (dir : String) (habs : abs (args.getD 0 "") = Except.ok dir) :
    (args.length < 2 → parseArgs abs args = Except.error "not enough arguments provided") ∧
    (args.length = 2 →
      parseArgs abs args = Except.ok (dir, args.getD 1 "", "go_kit_log")) ∧
    (args.length = 3 → (args.getD 2 "" = "go_kit_log" ∨ args.getD 2 "" = "zap") →
      parseArgs abs args = Except.ok (dir, args.getD 1 "", args.getD 2 "")) ∧
    (args.length = 3 → ¬ (args.getD 2 "" = "go_kit_log" ∨ args.getD 2 "" = "zap") →
      parseArgs abs args = Except.error ("unsupported logger type: " ++ args.getD 2 "")) := by
  refine ⟨?_, ?_, ?_, ?_⟩
  · intro h
    unfold parseArgs
    rw [if_pos h]
  · intro h
    unfold parseArgs
    rw [if_neg (by omega)]
    simp only [habs]
    rw [if_neg (by omega)]
    rfl
  · intro h hs
    have hsup := (isLoggerSupported_iff _).mpr hs
    unfold parseArgs
    rw [if_neg (by omega)]
    simp only [habs]
    rw [if_pos h]
    simp only [hsup, Bool.not_true, Bool.false_eq_true, if_false]
  · intro h hs
    have hsup : isLoggerSupported (args.getD 2 "") = false := by
      cases hb : isLoggerSupported (args.getD 2 "") with
      | false => rfl
      | true => exact absurd ((isLoggerSupported_iff _).mp hb) hs
    unfold parseArgs
    rw [if_neg (by omega)]
    simp only [habs]
    rw [if_pos h]
    simp only [hsup, Bool.not_false, if_true]

/-- The witness of C16 as amended: the three arguments `dir`, `Worker`, `zap`
select `zap`. -/
theorem parseArgs_selector_witness :
    (Except.ok ((["dir", "Worker", "zap"] : List String).getD 0 "") :
      Except String String) = Except.ok "dir" ∧
    parseArgs Except.ok ["dir", "Worker", "zap"] = Except.ok ("dir", "Worker", "zap") :=
  ⟨rfl,
    (parseArgs_selector Except.ok ["dir", "Worker", "zap"] "dir" rfl).2.2.1 rfl
      (Or.inr rfl)⟩

/-! ### Banner of tracegen -/

/-- C17: for every model, the text that `WriteSource` of tracegen writes to
its writer is the line `// Code generated by tracegen. DO NOT EDIT.` followed
by what the formatter writes; the banner is written before the file is built
and formatted, so it is there also when the formatter fails and `WriteSource`
returns the error of the formatter. -/
theorem writeSource_banner_first {F : Type} (build : File tracegen.Declaration → Option F)
    (formatNode : F → String × Option String) (m : tracegen.model) (w : String) :
    ∃ rest,
      (m.WriteSource build formatNode w).1 =
        w ++ "// Code generated by tracegen. DO NOT EDIT.\n" ++ rest ∧
      (∀ astFile, build m.fileBuilder = some astFile →
        rest = (formatNode astFile).1 ∧
        (m.WriteSource build formatNode w).2 =
          tracegen.Outcome.returned (formatNode astFile).2) ∧
      (build m.fileBuilder = none →
        rest = "" ∧ (m.WriteSource build formatNode w).2 = tracegen.Outcome.panicked) := by
  cases hb : build m.fileBuilder with
  | none =>
    refine ⟨"", ?_, ?_, ?_⟩
    · simp [tracegen.model.WriteSource, hb]
    · intro astFile h
      cases h
    · intro _
      exact ⟨rfl, by simp [tracegen.model.WriteSource, hb]⟩
  | some astFile =>
    refine ⟨(formatNode astFile).1, ?_, ?_, ?_⟩
    · cases he : (formatNode astFile).2 <;> simp [tracegen.model.WriteSource, hb, he]
    · intro a h
      injection h with h
      subst h
      refine ⟨rfl, ?_⟩
      cases he : (formatNode astFile).2 <;> simp [tracegen.model.WriteSource, hb, he]
    · intro h
      cases h

/-- An instance of C17: when the formatter writes nothing and fails with
`format error`, the writer holds the banner alone and `WriteSource` returns
that error. -/
theorem writeSource_banner_first_witness :
    (workerModel.WriteSource (fun _ => some ()) (fun _ => ("", some "format error")) "").1 =
      "// Code generated by tracegen. DO NOT EDIT.\n" ∧
    (workerModel.WriteSource (fun _ => some ()) (fun _ => ("", some "format error")) "").2 =
      tracegen.Outcome.returned (some "format error") := by
  obtain ⟨rest, htext, hsome, _⟩ :=
    writeSource_banner_first (fun _ => some ()) (fun _ => ("", some "format error"))
      workerModel ""
  obtain ⟨hrest, hout⟩ := hsome () rfl
  subst hrest
  exact ⟨by rw [htext]; rfl, hout⟩

/-! ### Supported backends and generation -/

theorem head?_firstName_of_ne_nil (f : Field) (h : f.Names ≠ []) :
    f.Names.head? = some f.firstName := by
  unfold FieldOf.firstName
  cases hn : f.Names with
  | nil => exact absurd hn h
  | cons a t => rfl

theorem logen_build_unsupported (quote : String → String) (structName : String)
    (cfg : MethodConfig) (ctxAlias : String) (info : loggerInfo) (last : Field)
    (hnamed : cfg.Named)
    (hlast : cfg.MethodResults.getLast? = some last)
    (herr : last.Typ = Expr.Ident "error")
    (hk : ¬ (info.name = "go_kit_log")) (hz : ¬ (info.name = "zap")) :
    ((NewLoggingMethodBuilder structName cfg ctxAlias info).Build quote).map FuncDecl.Body =
      some [Stmt.AssignStmt (cfg.MethodResults.map firstIdent) Token.DEFINE [delegateCall cfg],
            Stmt.ReturnStmt (cfg.MethodResults.map firstIdent)] := by
  have hne : cfg.MethodResults ≠ [] := by
    intro h
    simp [h] at hlast
  have hpos : 0 < cfg.MethodResults.length := List.length_pos.mpr hne
  have hidx : cfg.MethodResults[cfg.MethodResults.length - 1]? = some last := by
    rw [← List.getLast?_eq_getElem?]
    exact hlast
  have hinv := logen_invocation_of_named (Expr.SelectorExpr (Expr.Ident "m") "next") cfg hnamed
  have hret := logen_return_of_named cfg hnamed
  have hisE : cfg.MethodResults.isEmpty = false := by
    cases hres : cfg.MethodResults with
    | nil => exact absurd hres hne
    | cons r rs => rfl
  rw [hisE] at hinv
  generalize hb : NewLoggingMethodBuilder structName cfg ctxAlias info = b
  have hb1 : b.methodConfig = cfg := by subst hb; rfl
  have hb2 : b.loggerInfo = info := by subst hb; rfl
  have hb3 : b.method = NewMethod cfg.MethodName "m" structName := by subst hb; rfl
  simp only [LoggingMethodBuilder.Build, hb1, hb2, hb3, hinv, hret, hpos, hidx, herr,
    hk, hz, if_true, if_false, Option.map_some', gt_iff_lt, delegateCall]
  rfl

/-- C18: for a method whose last result has the type identifier `error` and
for every logger name `s`, the body that the logging variant builds contains a
logging statement if and only if `isLoggerSupported(s)` is true: for
`go_kit_log` and `zap` the body is the invocation, the guarded block and the
return; for any other name it is the invocation and the return alone. -/
theorem logging_iff_logger_supported (quote : String → String) (structName : String)
    (cfg : MethodConfig) (ctxAlias : String) (info : loggerInfo) (last : Field)
    (hnamed : cfg.Named)
    (hlast : cfg.MethodResults.getLast? = some last)
    (herr : last.Typ = Expr.Ident "error") :
    ∃ decl,
      (NewLoggingMethodBuilder structName cfg ctxAlias info).Build quote = some decl ∧
      (stmtsHaveLoggerCall decl.Body = true ↔ isLoggerSupported info.name = true) ∧
      (isLoggerSupported info.name = true →
        ∃ blk, decl.Body =
          [Stmt.AssignStmt (cfg.MethodResults.map firstIdent) Token.DEFINE [delegateCall cfg],
           Stmt.IfStmt none
             (Expr.BinaryExpr (Expr.Ident last.firstName) Token.NEQ (Expr.Ident "nil"))
             blk none,
           Stmt.ReturnStmt (cfg.MethodResults.map firstIdent)]) ∧
      (isLoggerSupported info.name = false →
        decl.Body =
          [Stmt.AssignStmt (cfg.MethodResults.map firstIdent) Token.DEFINE [delegateCall cfg],
           Stmt.ReturnStmt (cfg.MethodResults.map firstIdent)]) := by
  have hmem : last ∈ cfg.MethodResults := List.mem_of_getLast?_eq_some hlast
  have he : last.Names.head? = some last.firstName :=
    head?_firstName_of_ne_nil last (named_results hnamed last hmem)
  have hclean : exprsHaveLoggerCall (cfg.MethodResults.map firstIdent) = false :=
    exprsHaveLoggerCall_firstIdents _
  have hargs : exprsHaveLoggerCall (cfg.MethodParams.map firstIdent) = false :=
    exprsHaveLoggerCall_firstIdents _
  by_cases hsup : isLoggerSupported info.name = true
  · have hname := (isLoggerSupported_iff _).mp hsup
    have hS : ∃ blk,
        ((NewLoggingMethodBuilder structName cfg ctxAlias info).Build quote).map
            FuncDecl.Body =
          some [Stmt.AssignStmt (cfg.MethodResults.map firstIdent) Token.DEFINE
                  [delegateCall cfg],
                Stmt.IfStmt none
                  (Expr.BinaryExpr (Expr.Ident last.firstName) Token.NEQ (Expr.Ident "nil"))
                  blk none,
                Stmt.ReturnStmt (cfg.MethodResults.map firstIdent)] ∧
        stmtsHaveLoggerCall blk = true := by
      rcases hname with hk | hz
      · obtain ⟨blk, hK, hlog⟩ := kitlog_statement_shape quote structName cfg ctxAlias info
          cfg.MethodName last.firstName hnamed
        exact ⟨blk, logen_build_logged quote structName cfg ctxAlias info last last.firstName
          _ hnamed hlast herr he (Or.inl ⟨hk, hK⟩), hlog⟩
      · obtain ⟨blk, hZ, hlog⟩ := zap_statement_shape quote structName cfg ctxAlias info
          cfg.MethodName last.firstName hnamed
        exact ⟨blk, logen_build_logged quote structName cfg ctxAlias info last last.firstName
          _ hnamed hlast herr he (Or.inr ⟨hz, hZ⟩), hlog⟩
    obtain ⟨blk, hbody, hlog⟩ := hS
    obtain ⟨decl, hdecl, hb⟩ := Option.map_eq_some'.mp hbody
    refine ⟨decl, hdecl, ?_, ?_, ?_⟩
    · rw [hb]
      simp [stmtsHaveLoggerCall, Stmt.hasLoggerCall, hlog, hsup]
    · intro _
      exact ⟨blk, hb⟩
    · intro hfalse
      rw [hsup] at hfalse
      cases hfalse
  · have hk : ¬ (info.name = "go_kit_log") := fun h =>
      hsup ((isLoggerSupported_iff _).mpr (Or.inl h))
    have hz : ¬ (info.name = "zap") := fun h =>
      hsup ((isLoggerSupported_iff _).mpr (Or.inr h))
    have hbody := logen_build_unsupported quote structName cfg ctxAlias info last hnamed hlast
      herr hk hz
    obtain ⟨decl, hdecl, hb⟩ := Option.map_eq_some'.mp hbody
    refine ⟨decl, hdecl, ?_, ?_, ?_⟩
    · rw [hb]
      simp [stmtsHaveLoggerCall, Stmt.hasLoggerCall, exprsHaveLoggerCall, Expr.hasLoggerCall,
        Expr.isLoggerCall, delegateCall, hclean, hargs, hsup]
    · intro h
      exact absurd h hsup
    · intro _
      exact hb

/-- The witness of C18: `Do(ctx context.Context, n int) (string, error)` with
the logger name `logrus`, which is not supported: the body is the invocation
and the return alone. -/
theorem logging_iff_logger_supported_witness :
    workerDo.Named ∧ isLoggerSupported "logrus" = false ∧
    ∃ decl,
      (NewLoggingMethodBuilder "errorLoggingWorker" workerDo "context"
        { name := "logrus", packageAlias := "alias2", loggerType := Expr.Ident "Logger",
          fieldsType := Expr.Ident "Field" }).Build quotePlain = some decl ∧
      decl.Body =
        [Stmt.AssignStmt [Expr.Ident "result1", Expr.Ident "result2"] Token.DEFINE
           [delegateCall workerDo],
         Stmt.ReturnStmt [Expr.Ident "result1", Expr.Ident "result2"]] := by
  obtain ⟨decl, hdecl, _, _, hun⟩ :=
    logging_iff_logger_supported quotePlain "errorLoggingWorker" workerDo "context"
      { name := "logrus", packageAlias := "alias2", loggerType := Expr.Ident "Logger",
        fieldsType := Expr.Ident "Field" }
      { Names := ["result2"], Typ := Expr.Ident "error" } workerDo_named rfl rfl
  exact ⟨workerDo_named, by decide, decl, hdecl, hun (by decide)⟩

/-! ### Agreement of the variants, and index safety -/

/-- C19: for every method and every context alias, `contextArgName` of logen
returns `(c, true)` if and only if the body that the tracing variant builds,
for the same method and the same context alias, starts with the span-start
statement whose context identifier, passed to `StartSpan` and rebound by it,
is that same `c`; and `contextArgName` reports `true` if and only if the body
has a span-start statement at all. -/
theorem context_detection_agrees (quote : String → String)
    (loggingName tracingName : String) (cfg : MethodConfig)
    (traceAlias ctxAlias fullName : String) (info : loggerInfo) (hnamed : cfg.Named) :
    ∃ decl,
      (tracegen.newTracingMethodBuilder tracingName cfg traceAlias ctxAlias fullName).Build
        quote = some decl ∧
      ((∃ c, (NewLoggingMethodBuilder loggingName cfg ctxAlias info).contextArgName =
          some (c, true)) ↔ decl.Body.any Stmt.isSpanStart = true) ∧
      (∀ c, (NewLoggingMethodBuilder loggingName cfg ctxAlias info).contextArgName =
          some (c, true) ↔
        decl.Body.head? =
          some (Stmt.AssignStmt [Expr.Ident c, Expr.Ident "_span"] Token.DEFINE
            [Expr.CallExpr (Expr.SelectorExpr (Expr.Ident traceAlias) "StartSpan")
              [Expr.Ident c, Expr.BasicLit Token.STRING (quote fullName)] NoPos])) := by
  obtain ⟨pos, hinv, _, _⟩ :=
    tracegen_invocation_of_named (Expr.SelectorExpr (Expr.Ident "m") "next") cfg hnamed
  rcases contextArgName_cases loggingName cfg ctxAlias info hnamed with
    ⟨hlead, p, hfirst, hc⟩ | ⟨hnot, hc⟩
  · obtain ⟨q, hq, hctx⟩ := hlead
    have hpq : q = p := by
      rw [hfirst] at hq
      injection hq with hq
      exact hq.symm
    subst hpq
    have hbody := tracing_body_of_leading quote tracingName cfg traceAlias ctxAlias fullName q
      q.firstName _ hinv hfirst hctx (head?_firstName_of_named cfg hnamed q hfirst)
    obtain ⟨decl, hdecl, hb⟩ := Option.map_eq_some'.mp hbody
    refine ⟨decl, hdecl, ?_, ?_⟩
    · rw [hb]
      constructor
      · intro _
        simp [Stmt.isSpanStart]
      · intro _
        exact ⟨_, hc⟩
    · intro c
      rw [hb, hc]
      constructor
      · intro h
        injection h with h
        injection h with h _
        subst h
        rfl
      · intro h
        simp only [List.head?_cons, Option.some.injEq, Stmt.AssignStmt.injEq,
          List.cons.injEq, Expr.Ident.injEq, and_true, true_and] at h
        rw [h.1]
  · have hbody := tracing_body_of_not_leading quote tracingName cfg traceAlias ctxAlias
      fullName _ hinv hnot
    obtain ⟨decl, hdecl, hb⟩ := Option.map_eq_some'.mp hbody
    refine ⟨decl, hdecl, ?_, ?_⟩
    · rw [hb, hc]
      by_cases hres : cfg.MethodResults.isEmpty = true
      · simp [hres, Stmt.isSpanStart]
      · simp [hres, Stmt.isSpanStart]
    · intro c
      rw [hb, hc]
      by_cases hres : cfg.MethodResults.isEmpty = true
      · simp [hres]
      · simp [hres]

/-- The witness of C19: for `Do(ctx context.Context, n int) (string, error)`
and the context alias `context`, logen reports `("ctx", true)` and the body of
the tracing variant starts with `ctx, _span := alias2.StartSpan(ctx, ...)`. -/
theorem context_detection_agrees_witness :
    workerDo.Named ∧
    (NewLoggingMethodBuilder "errorLoggingWorker" workerDo "context"
        kitLogInfo).contextArgName = some ("ctx", true) ∧
    ∃ decl,
      (tracegen.newTracingMethodBuilder "tracingWorker" workerDo "alias2" "context"
        "github.com/acme/jobs.Worker.Do").Build quotePlain = some decl ∧
      decl.Body.head? =
        some (Stmt.AssignStmt [Expr.Ident "ctx", Expr.Ident "_span"] Token.DEFINE
          [Expr.CallExpr (Expr.SelectorExpr (Expr.Ident "alias2") "StartSpan")
            [Expr.Ident "ctx",
             Expr.BasicLit Token.STRING (quotePlain "github.com/acme/jobs.Worker.Do")]
            NoPos]) := by
  obtain ⟨decl, hdecl, _, hiff⟩ :=
    context_detection_agrees quotePlain "errorLoggingWorker" "tracingWorker" workerDo "alias2"
      "context" "github.com/acme/jobs.Worker.Do" kitLogInfo workerDo_named
  exact ⟨workerDo_named, rfl, decl, hdecl, (hiff "ctx").mp rfl⟩

theorem logen_build_total (quote : String → String) (structName : String)
    (cfg : MethodConfig) (ctxAlias : String) (info : loggerInfo) (hnamed : cfg.Named) :
    ∃ decl, (NewLoggingMethodBuilder structName cfg ctxAlias info).Build quote = some decl := by
  by_cases hno : ∀ last, cfg.MethodResults.getLast? = some last →
      last.Typ ≠ Expr.Ident "error"
  · exact ⟨_, logen_build_unlogged quote structName cfg ctxAlias info hnamed hno⟩
  · have hex : ∃ last, cfg.MethodResults.getLast? = some last ∧
        last.Typ = Expr.Ident "error" := by
      by_contra hcon
      exact hno (fun last hl hty => hcon ⟨last, hl, hty⟩)
    obtain ⟨last, hlast, herr⟩ := hex
    have hmem : last ∈ cfg.MethodResults := List.mem_of_getLast?_eq_some hlast
    have he : last.Names.head? = some last.firstName :=
      head?_firstName_of_ne_nil last (named_results hnamed last hmem)
    have hsome : ∀ body, ((NewLoggingMethodBuilder structName cfg ctxAlias info).Build
        quote).map FuncDecl.Body = some body →
        ∃ decl, (NewLoggingMethodBuilder structName cfg ctxAlias info).Build quote =
          some decl := by
      intro body h
      obtain ⟨decl, hdecl, _⟩ := Option.map_eq_some'.mp h
      exact ⟨decl, hdecl⟩
    by_cases hk : info.name = "go_kit_log"
    · obtain ⟨blk, hK, _⟩ := kitlog_statement_shape quote structName cfg ctxAlias info
        cfg.MethodName last.firstName hnamed
      exact hsome _ (logen_build_logged quote structName cfg ctxAlias info last last.firstName
        _ hnamed hlast herr he (Or.inl ⟨hk, hK⟩))
    · by_cases hz : info.name = "zap"
      · obtain ⟨blk, hZ, _⟩ := zap_statement_shape quote structName cfg ctxAlias info
          cfg.MethodName last.firstName hnamed
        exact hsome _ (logen_build_logged quote structName cfg ctxAlias info last
          last.firstName _ hnamed hlast herr he (Or.inr ⟨hz, hZ⟩))
      · exact hsome _ (logen_build_unsupported quote structName cfg ctxAlias info last hnamed
          hlast herr hk hz)

/-- C20: for a method in which every parameter field and every result field
has a non-empty name list, none of the builders indexes out of range, that is
none of them panics: `LoggingMethodBuilder.Build` with any backend,
`contextArgName`, `MethodInvocation.Build` and `ReturnResults.Build` of logen,
`tracingMethodBuilder.Build` and `MethodInvocation.Build` of tracegen each
return their result. -/
theorem builders_index_safe (quote : String → String) (loggingName tracingName : String)
    (cfg : MethodConfig) (traceAlias ctxAlias fullName : String) (info : loggerInfo)
    (recv : Expr) (hnamed : cfg.Named) :
    (∃ decl, (NewLoggingMethodBuilder loggingName cfg ctxAlias info).Build quote =
      some decl) ∧
    (∃ r, (NewLoggingMethodBuilder loggingName cfg ctxAlias info).contextArgName = some r) ∧
    (∃ stmt, ((NewMethodInvocation cfg).SetReceiver recv).Build = some stmt) ∧
    (∃ stmt, (NewReturnResults cfg).Build = some stmt) ∧
    (∃ decl, (tracegen.newTracingMethodBuilder tracingName cfg traceAlias ctxAlias
      fullName).Build quote = some decl) ∧
    (∃ stmt, ((tracegen.NewMethodInvocation cfg).SetReceiver recv).Build = some stmt) := by
  refine ⟨logen_build_total quote loggingName cfg ctxAlias info hnamed, ?_, ?_, ?_, ?_, ?_⟩
  · obtain ⟨c, ok, hc⟩ := contextArgName_of_named loggingName cfg ctxAlias info hnamed
    exact ⟨_, hc⟩
  · exact ⟨_, logen_invocation_of_named recv cfg hnamed⟩
  · exact ⟨_, logen_return_of_named cfg hnamed⟩
  · obtain ⟨pos, hinv, _, _⟩ :=
      tracegen_invocation_of_named (Expr.SelectorExpr (Expr.Ident "m") "next") cfg hnamed
    rcases tracing_body_cases quote tracingName cfg traceAlias ctxAlias fullName _ hnamed
      hinv with ⟨_, c, hbody⟩ | ⟨_, hbody⟩
    · obtain ⟨decl, hdecl, _⟩ := Option.map_eq_some'.mp hbody
      exact ⟨decl, hdecl⟩
    · obtain ⟨decl, hdecl, _⟩ := Option.map_eq_some'.mp hbody
      exact ⟨decl, hdecl⟩
  · obtain ⟨pos, hinv, _, _⟩ := tracegen_invocation_of_named recv cfg hnamed
    exact ⟨_, hinv⟩

/-- The witness of C20: the method `Close()`, without parameters and without
results, with the zap backend. -/
theorem builders_index_safe_witness :
    closeMethod.Named ∧
    (∃ decl, (NewLoggingMethodBuilder "errorLoggingCloser" closeMethod "context"
      zapInfo).Build quotePlain = some decl) ∧
    (∃ decl, (tracegen.newTracingMethodBuilder "tracingCloser" closeMethod "alias2" "context"
      "github.com/acme/jobs.Closer.Close").Build quotePlain = some decl) := by
  have h := builders_index_safe quotePlain "errorLoggingCloser" "tracingCloser" closeMethod
    "alias2" "context" "github.com/acme/jobs.Closer.Close" zapInfo
    (Expr.SelectorExpr (Expr.Ident "m") "next") closeMethod_named
  exact ⟨closeMethod_named, h.1, h.2.2.2.2.1⟩

/-! ### Snake case -/

theorem getD_append_at (pre : List Char) (x : Char) (rest : List Char) (d : Char) :
    (pre ++ x :: rest).getD pre.length d = x := by
  induction pre with
  | nil => rfl
  | cons a t ih => simpa using ih

theorem snake_step_cond (U : unicode.Package) (pre : List Char) (r : Char)
    (rest : List Char) :
    (decide (pre.length > 0) &&
      (U.IsUpper ((pre ++ r :: rest).getD pre.length default) ||
        U.IsNumber ((pre ++ r :: rest).getD pre.length default)) &&
      ((decide (pre.length + 1 < (pre ++ r :: rest).length) &&
          U.IsLower ((pre ++ r :: rest).getD (pre.length + 1) default)) ||
        U.IsLower ((pre ++ r :: rest).getD (pre.length - 1) default))) =
      needsSeparator U pre.getLast? r rest ∧
    (pre ++ r :: rest).getD pre.length default = r := by
  have hr : (pre ++ r :: rest).getD pre.length default = r :=
    getD_append_at pre r rest default
  refine ⟨?_, hr⟩
  rw [hr]
  rcases List.eq_nil_or_concat pre with hp | ⟨pre', p, hp⟩
  · subst hp
    simp [needsSeparator]
  · have hp' : pre = pre' ++ [p] := by rw [hp, List.concat_eq_append]
    subst hp'
    have hprev : (pre' ++ [p] ++ r :: rest).getD ((pre' ++ [p]).length - 1) default = p := by
      have h := getD_append_at pre' p (r :: rest) default
      have hl : pre' ++ p :: r :: rest = pre' ++ [p] ++ r :: rest := by simp
      have hn : pre'.length = (pre' ++ [p]).length - 1 := by simp
      rw [hl, hn] at h
      exact h
    rw [hprev]
    cases rest with
    | nil => simp [needsSeparator]
    | cons r2 rest2 =>
      have hnext :
          (pre' ++ [p] ++ r :: r2 :: rest2).getD ((pre' ++ [p]).length + 1) default = r2 := by
        have h := getD_append_at (pre' ++ [p] ++ [r]) r2 rest2 default
        have hl : (pre' ++ [p] ++ [r]) ++ r2 :: rest2 = pre' ++ [p] ++ r :: r2 :: rest2 := by
          simp
        have hn : (pre' ++ [p] ++ [r]).length = (pre' ++ [p]).length + 1 := by simp
        rw [hl, hn] at h
        exact h
      rw [hnext]
      have hlt : pre'.length + 1 + 1 < pre'.length + (rest2.length + 1 + 1 + 1) := by omega
      simp [needsSeparator, hlt]

theorem snake_fold (U : unicode.Package) (runes : List Char) :
    ∀ (suf pre out : List Char), runes = pre ++ suf →
      (List.range' pre.length suf.length).foldl
        (fun out i =>
          let out :=
            if decide (i > 0) &&
                (U.IsUpper (runes.getD i default) || U.IsNumber (runes.getD i default)) &&
                ((decide (i + 1 < runes.length) && U.IsLower (runes.getD (i + 1) default)) ||
                  U.IsLower (runes.getD (i - 1) default))
            then out ++ ['_'] else out
          out ++ [U.ToLower (runes.getD i default)]) out =
      out ++ snakeFrom U pre.getLast? suf := by
  intro suf
  induction suf with
  | nil =>
    intro pre out _
    simp [snakeFrom]
  | cons r rest ih =>
    intro pre out hrunes
    have h := ih (pre ++ [r])
    simp only [List.length_append, List.length_singleton] at h
    simp only [List.length_cons, List.range'_succ, List.foldl_cons]
    rw [h _ (by rw [hrunes]; simp)]
    obtain ⟨hcond, hr⟩ := snake_step_cond U pre r rest
    rw [← hrunes] at hcond hr
    rw [hcond, hr]
    by_cases hs : needsSeparator U pre.getLast? r rest = true
    · simp [snakeFrom, hs]
    · simp [snakeFrom, hs]

theorem toSnakeCase_eq_snakeFrom (U : unicode.Package) (s : String) :
    toSnakeCase U s = String.mk (snakeFrom U none s.toList) := by
  have h := snake_fold U s.toList s.toList [] [] (by simp)
  simp only [List.length_nil, List.getLast?_nil, List.nil_append] at h
  simp only [toSnakeCase, List.range_eq_range', h]

theorem snakeFrom_marks (U : unicode.Package) :
    ∀ (rs : List Char) (prev : Option Char),
      ∃ marks : List Bool, marks.length = rs.length ∧
        (prev = none → marks.head? ≠ some true) ∧
        snakeFrom U prev rs = withSeparators U.ToLower marks rs := by
  intro rs
  induction rs with
  | nil =>
    intro prev
    exact ⟨[], rfl, by simp, by simp [snakeFrom, withSeparators]⟩
  | cons r rest ih =>
    intro prev
    obtain ⟨marks, hlen, _, heq⟩ := ih (some r)
    refine ⟨needsSeparator U prev r rest :: marks, by simp [hlen], ?_, ?_⟩
    · intro hp
      subst hp
      simp [needsSeparator]
    · simp [snakeFrom, withSeparators, heq]

theorem snakeFrom_length (U : unicode.Package) :
    ∀ (rs : List Char) (prev : Option Char),
      rs.length ≤ (snakeFrom U prev rs).length ∧
      (snakeFrom U prev rs).length ≤ 2 * rs.length := by
  intro rs
  induction rs with
  | nil =>
    intro prev
    simp [snakeFrom]
  | cons r rest ih =>
    intro prev
    obtain ⟨h1, h2⟩ := ih (some r)
    by_cases hs : needsSeparator U prev r rest = true
    · simp only [snakeFrom, hs, if_true, List.length_append, List.length_cons,
        List.length_nil]
      omega
    · simp only [snakeFrom, hs, if_false, List.length_append, List.length_cons,
        List.length_nil, Bool.false_eq_true]
      omega

theorem snakeFrom_filter (U : unicode.Package)
    (hU : ∀ r : Char, r ≠ '_' → U.ToLower r ≠ '_') :
    ∀ (rs : List Char) (prev : Option Char), (∀ r ∈ rs, r ≠ '_') →
      (snakeFrom U prev rs).filter (fun r => r != '_') = rs.map U.ToLower := by
  intro rs
  induction rs with
  | nil =>
    intro prev _
    simp [snakeFrom]
  | cons r rest ih =>
    intro prev hin
    have hr : U.ToLower r ≠ '_' := hU r (hin r (List.mem_cons_self r rest))
    have hrest := ih (some r) (fun x hx => hin x (List.mem_cons_of_mem r hx))
    by_cases hs : needsSeparator U prev r rest = true
    · simp [snakeFrom, hs, hr, hrest, List.filter_cons]
    · simp [snakeFrom, hs, hr, hrest, List.filter_cons]

/-- C22: for every input, the output of `toSnakeCase` is the runes of the
input, in order, each mapped through `unicode.ToLower`, with at most one
underscore right before each rune and none before the first; so the empty
input gives the empty output, an input of n > 0 runes gives between n and
2n-1 runes, and for an input without underscore, deleting every underscore
from the output leaves exactly the lowercased input (`unicode.ToLower` maps no
other rune to the underscore). -/
theorem toSnakeCase_lowercases_and_separates (U : unicode.Package) (s : String) :
    (∃ marks : List Bool, marks.length = s.length ∧ marks.head? ≠ some true ∧
      (toSnakeCase U s).toList = withSeparators U.ToLower marks s.toList) ∧
    toSnakeCase U "" = "" ∧
    (s ≠ "" →
      s.length ≤ (toSnakeCase U s).length ∧ (toSnakeCase U s).length ≤ 2 * s.length - 1) ∧
    ((∀ r ∈ s.toList, r ≠ '_') → (∀ r : Char, r ≠ '_' → U.ToLower r ≠ '_') →
      (toSnakeCase U s).toList.filter (fun r => r != '_') = s.toList.map U.ToLower) := by
  rw [toSnakeCase_eq_snakeFrom U s]
  obtain ⟨l⟩ := s
  refine ⟨?_, rfl, ?_, ?_⟩
  · obtain ⟨marks, hlen, hhead, heq⟩ := snakeFrom_marks U l none
    exact ⟨marks, hlen, hhead rfl, heq⟩
  · intro hne
    cases l with
    | nil => exact absurd rfl hne
    | cons r rest =>
      obtain ⟨h1, h2⟩ := snakeFrom_length U rest (some r)
      simp only [String.toList, snakeFrom, needsSeparator, Option.isSome_none,
        Bool.false_and, Bool.false_eq_true, if_false, List.nil_append, String.length,
        List.length_cons]
      omega
  · intro hin hU
    exact snakeFrom_filter U hU l none hin

theorem toLower_of_isLower (c : Char) (h : c.isLower = true) : c.toLower = c := by
  have h1 : 97 ≤ c.toNat := by
    simp only [Char.isLower, Bool.and_eq_true, decide_eq_true_eq] at h
    exact UInt32.le_def.mp h.1
  unfold Char.toLower
  simp only []
  rw [if_neg]
  omega

theorem toLower_of_not_isUpper (c : Char) (h : c.isUpper = false) : c.toLower = c := by
  unfold Char.toLower
  simp only []
  rw [if_neg]
  intro hc
  have hu : c.isUpper = true := by
    simp only [Char.isUpper, Bool.and_eq_true, decide_eq_true_eq]
    exact ⟨UInt32.le_def.mpr hc.1, UInt32.le_def.mpr hc.2⟩
  rw [h] at hu
  cases hu

theorem toNat_ofNat_small (n : Nat) (h : n < 55296) : (Char.ofNat n).toNat = n := by
  have hv : n.isValidChar := Or.inl h
  unfold Char.ofNat
  rw [dif_pos hv]
  simp [Char.ofNatAux, Char.toNat, UInt32.toNat]

theorem toLower_ne_underscore_of_isUpper (c : Char) (h : c.isUpper = true) :
    c.toLower ≠ '_' := by
  simp only [Char.isUpper, Bool.and_eq_true, decide_eq_true_eq] at h
  have h1 : 65 ≤ c.toNat := UInt32.le_def.mp h.1
  have h2 : c.toNat ≤ 90 := UInt32.le_def.mp h.2
  intro hc
  have hn : c.toLower.toNat = c.toNat + 32 := by
    unfold Char.toLower
    simp only []
    rw [if_pos ⟨h1, h2⟩]
    exact toNat_ofNat_small _ (by omega)
  rw [hc] at hn
  have h95 : ('_' : Char).toNat = 95 := by decide
  omega

theorem asciiPackage_keeps_underscore_apart (r : Char) (h : r ≠ '_') :
    asciiPackage.ToLower r ≠ '_' := by
  show r.toLower ≠ '_'
  cases hu : r.isUpper with
  | true => exact toLower_ne_underscore_of_isUpper r hu
  | false =>
    rw [toLower_of_not_isUpper r hu]
    exact h

/-- An instance of C22: on `HTTPServer2Go`, which has no underscore, with the
functions of package `unicode` on ASCII, the output is `http_server_2_go`, 16
runes for 13, and without its underscores it is the lowercased input. -/
theorem toSnakeCase_lowercases_and_separates_witness :
    toSnakeCase asciiPackage "HTTPServer2Go" = "http_server_2_go" ∧
    (∀ r ∈ "HTTPServer2Go".toList, r ≠ '_') ∧
    (∀ r : Char, r ≠ '_' → asciiPackage.ToLower r ≠ '_') ∧
    (toSnakeCase asciiPackage "HTTPServer2Go").toList.filter (fun r => r != '_') =
      "HTTPServer2Go".toList.map asciiPackage.ToLower ∧
    "HTTPServer2Go".length ≤ (toSnakeCase asciiPackage "HTTPServer2Go").length ∧
    (toSnakeCase asciiPackage "HTTPServer2Go").length ≤ 2 * "HTTPServer2Go".length - 1 := by
  have hin : ∀ r ∈ "HTTPServer2Go".toList, r ≠ '_' := by decide
  have h := toSnakeCase_lowercases_and_separates asciiPackage "HTTPServer2Go"
  exact ⟨by decide, hin, asciiPackage_keeps_underscore_apart,
    h.2.2.2 hin asciiPackage_keeps_underscore_apart, h.2.2.1 (by decide)⟩

theorem camel_word_cases (w : String) (h : isCamelWord w = true) :
    ∃ c d ds, w.data = c :: d :: ds ∧ c.isUpper = true ∧ ∀ x ∈ d :: ds, x.isLower = true := by
  obtain ⟨l⟩ := w
  unfold isCamelWord at h
  simp only [String.toList] at h
  cases l with
  | nil => simp at h
  | cons c t =>
    cases t with
    | nil => simp at h
    | cons d ds =>
      simp only [Bool.and_eq_true, List.all_eq_true] at h
      exact ⟨c, d, ds, rfl, h.1, h.2⟩

theorem map_toLower_camel (c d : Char) (ds : List Char)
    (hl : ∀ x ∈ d :: ds, x.isLower = true) :
    (c :: d :: ds).map Char.toLower = c.toLower :: d :: ds := by
  have hfix : ∀ l : List Char, (∀ x ∈ l, x.isLower = true) → l.map Char.toLower = l := by
    intro l
    induction l with
    | nil => intro _; rfl
    | cons a t ih =>
      intro h
      rw [List.map_cons, toLower_of_isLower a (h a (List.mem_cons_self a t)),
        ih (fun x hx => h x (List.mem_cons_of_mem a hx))]
  rw [List.map_cons, hfix _ hl]

theorem snakeFrom_lowers (U : unicode.Package) (hU : asciiLetters U) (rest : List Char) :
    ∀ (cs : List Char) (prev : Option Char), (∀ d ∈ cs, d.isLower = true) →
      ∃ prev' : Option Char, (prev.isSome = true → prev'.isSome = true) ∧
        (cs ≠ [] → prev'.isSome = true) ∧
        snakeFrom U prev (cs ++ rest) = cs ++ snakeFrom U prev' rest := by
  intro cs
  induction cs with
  | nil =>
    intro prev _
    exact ⟨prev, fun h => h, fun h => absurd rfl h, rfl⟩
  | cons d ds ih =>
    intro prev hl
    obtain ⟨_, hup, hnum, hlow⟩ := (hU d).2 (hl d (List.mem_cons_self d ds))
    obtain ⟨prev', hsome, _, heq⟩ := ih (some d) (fun x hx => hl x (List.mem_cons_of_mem d hx))
    refine ⟨prev', fun _ => hsome rfl, fun _ => hsome rfl, ?_⟩
    simp [snakeFrom, needsSeparator, hup, hnum, hlow, heq]

theorem snakeFrom_word (U : unicode.Package) (hU : asciiLetters U) (c d : Char)
    (ds rest : List Char) (prev : Option Char) (hc : c.isUpper = true)
    (hl : ∀ x ∈ d :: ds, x.isLower = true) :
    ∃ prev' : Option Char, prev'.isSome = true ∧
      snakeFrom U prev (c :: d :: ds ++ rest) =
        (if prev.isSome then ['_'] else []) ++ (c :: d :: ds).map Char.toLower ++
          snakeFrom U prev' rest := by
  obtain ⟨hup, hlow⟩ := (hU c).1 hc
  obtain ⟨hdl, _, _, _⟩ := (hU d).2 (hl d (List.mem_cons_self d ds))
  obtain ⟨prev', _, hsome, heq⟩ := snakeFrom_lowers U hU rest (d :: ds) (some c) hl
  refine ⟨prev', hsome (by simp), ?_⟩
  have hsep : needsSeparator U prev c (d :: ds ++ rest) = prev.isSome := by
    simp [needsSeparator, hup, hdl]
  rw [map_toLower_camel c d ds hl]
  have hcons : c :: d :: ds ++ rest = c :: (d :: ds ++ rest) := rfl
  rw [hcons, snakeFrom, hsep, hlow, heq]
  simp

theorem snakeFrom_words (U : unicode.Package) (hU : asciiLetters U) :
    ∀ (ws : List String) (prev : Option Char), prev.isSome = true →
      (∀ w ∈ ws, isCamelWord w = true) →
      snakeFrom U prev (ws.map String.data).flatten =
        (ws.map (fun w => '_' :: w.data.map Char.toLower)).flatten := by
  intro ws
  induction ws with
  | nil =>
    intro prev _ _
    simp [snakeFrom]
  | cons w ws ih =>
    intro prev hp hw
    obtain ⟨c, d, ds, hdata, hc, hl⟩ := camel_word_cases w (hw w (List.mem_cons_self w ws))
    obtain ⟨prev', hsome, heq⟩ :=
      snakeFrom_word U hU c d ds (ws.map String.data).flatten prev hc hl
    have hrest := ih prev' hsome (fun x hx => hw x (List.mem_cons_of_mem w hx))
    simp only [List.map_cons, List.flatten_cons, hdata]
    rw [heq, hrest, hp]
    simp

theorem intercalate_go_data (sep : String) :
    ∀ (l : List String) (acc : String),
      (String.intercalate.go acc sep l).data =
        acc.data ++ (l.map (fun a => sep.data ++ a.data)).flatten := by
  intro l
  induction l with
  | nil =>
    intro acc
    simp [String.intercalate.go]
  | cons a t ih =>
    intro acc
    simp [String.intercalate.go, ih, String.data_append]

theorem snake_of_camel_words (U : unicode.Package) (hU : asciiLetters U) (w : String)
    (ws : List String) (hw : ∀ x ∈ w :: ws, isCamelWord x = true) :
    (toSnakeCase U (String.join (w :: ws))).data =
      w.data.map Char.toLower ++
        (ws.map (fun x => '_' :: x.data.map Char.toLower)).flatten ∧
    ("_".intercalate ((w :: ws).map String.toLower)).data =
      w.data.map Char.toLower ++
        (ws.map (fun x => '_' :: x.data.map Char.toLower)).flatten := by
  constructor
  · obtain ⟨c, d, ds, hdata, hc, hl⟩ := camel_word_cases w (hw w (List.mem_cons_self w ws))
    obtain ⟨prev', hsome, heq⟩ :=
      snakeFrom_word U hU c d ds (ws.map String.data).flatten none hc hl
    have hrest := snakeFrom_words U hU ws prev' hsome
      (fun x hx => hw x (List.mem_cons_of_mem w hx))
    rw [toSnakeCase_eq_snakeFrom, String.join_eq]
    simp only [String.toList, List.map_cons, List.flatten_cons, hdata]
    rw [heq, hrest]
    simp
  · have hd : ∀ x : String, x.toLower.data = x.data.map Char.toLower := by
      intro x
      simp [String.toLower, String.map_eq]
    simp only [String.intercalate, List.map_cons, intercalate_go_data, List.map_map, hd]
    congr 3
    funext x
    simp [hd]

theorem last_of_lower_tail (pre : List Char) (d : Char) (ds : List Char)
    (hl : ∀ x ∈ d :: ds, x.isLower = true) (x : Char)
    (h : (pre ++ d :: ds).getLast? = some x) : x.isLower = true := by
  rw [List.getLast?_append_of_ne_nil pre (List.cons_ne_nil d ds)] at h
  exact hl x (List.mem_of_getLast?_eq_some h)

theorem last_of_camel_blocks :
    ∀ (ws : List String), (∀ w ∈ ws, isCamelWord w = true) → ∀ x : Char,
      (ws.map (fun w => '_' :: w.data.map Char.toLower)).flatten.getLast? = some x →
      x.isLower = true := by
  intro ws
  induction ws with
  | nil =>
    intro _ x h
    simp at h
  | cons w ws ih =>
    intro hw x h
    obtain ⟨c, d, ds, hdata, _, hl⟩ := camel_word_cases w (hw w (List.mem_cons_self w ws))
    simp only [List.map_cons, List.flatten_cons, hdata, map_toLower_camel c d ds hl,
      List.getLast?_append] at h
    cases hrest : (ws.map (fun w => '_' :: w.data.map Char.toLower)).flatten.getLast? with
    | some y =>
      rw [hrest] at h
      simp only [Option.or_some] at h
      injection h with h
      subst h
      exact ih (fun v hv => hw v (List.mem_cons_of_mem w hv)) y hrest
    | none =>
      rw [hrest] at h
      simp only [Option.none_or] at h
      exact last_of_lower_tail ['_', c.toLower] d ds hl x h

/-- C21: for every non-empty sequence of words, each one ASCII uppercase letter
followed by one or more ASCII lowercase letters, `toSnakeCase` of their
concatenation is the words lowercased and joined by single underscores; it
neither starts nor ends with an underscore; and `filename` of the
concatenation is `logging_`, that snake case, `.go`. -/
theorem toSnakeCase_camel_words (U : unicode.Package) (ws : List String)
    (hU : asciiLetters U) (hne : ws ≠ []) (hw : ∀ w ∈ ws, isCamelWord w = true) :
    toSnakeCase U (String.join ws) = "_".intercalate (ws.map String.toLower) ∧
    (toSnakeCase U (String.join ws)).toList.head? ≠ some '_' ∧
    (toSnakeCase U (String.join ws)).toList.getLast? ≠ some '_' ∧
    filename U (String.join ws) =
      "logging_" ++ "_".intercalate (ws.map String.toLower) ++ ".go" := by
  cases ws with
  | nil => exact absurd rfl hne
  | cons w ws =>
    obtain ⟨hout, hjoin⟩ := snake_of_camel_words U hU w ws hw
    have heq : toSnakeCase U (String.join (w :: ws)) =
        "_".intercalate ((w :: ws).map String.toLower) :=
      String.ext (hout.trans hjoin.symm)
    obtain ⟨c, d, ds, hdata, hc, hl⟩ := camel_word_cases w (hw w (List.mem_cons_self w ws))
    have hund : ('_' : Char).isLower = false := by decide
    refine ⟨heq, ?_, ?_, ?_⟩
    · simp only [String.toList, hout, hdata, map_toLower_camel c d ds hl]
      intro h
      simp only [List.cons_append, List.head?_cons, Option.some.injEq] at h
      exact toLower_ne_underscore_of_isUpper c hc h
    · simp only [String.toList, hout, hdata, map_toLower_camel c d ds hl,
        List.getLast?_append]
      intro h
      cases hrest : (ws.map (fun w => '_' :: w.data.map Char.toLower)).flatten.getLast? with
      | some y =>
        rw [hrest] at h
        simp only [Option.or_some] at h
        injection h with h
        subst h
        have hlow := last_of_camel_blocks ws
          (fun v hv => hw v (List.mem_cons_of_mem w hv)) _ hrest
        rw [hund] at hlow
        cases hlow
      | none =>
        rw [hrest] at h
        simp only [Option.none_or] at h
        have hlow := last_of_lower_tail [c.toLower] d ds hl _ h
        rw [hund] at hlow
        cases hlow
    · unfold filename
      rw [heq]

/-- The witness of C21: `GoKitService` gives `go_kit_service` and the file
name `logging_go_kit_service.go`; `DoWorkCtx` gives `do_work_ctx`. -/
theorem toSnakeCase_camel_words_witness :
    asciiLetters asciiPackage ∧
    (∀ w ∈ ["Go", "Kit", "Service"], isCamelWord w = true) ∧
    toSnakeCase asciiPackage "GoKitService" = "go_kit_service" ∧
    filename asciiPackage "GoKitService" = "logging_go_kit_service.go" ∧
    (∀ w ∈ ["Do", "Work", "Ctx"], isCamelWord w = true) ∧
    toSnakeCase asciiPackage "DoWorkCtx" = "do_work_ctx" := by
  have hU : asciiLetters asciiPackage := by
    intro c
    refine ⟨fun hup => ⟨hup, rfl⟩, fun hlo => ?_⟩
    have hfix := toLower_of_isLower c hlo
    have h1 : 97 ≤ c.toNat := by
      simp only [Char.isLower, Bool.and_eq_true, decide_eq_true_eq] at hlo
      exact UInt32.le_def.mp hlo.1
    refine ⟨hlo, ?_, ?_, hfix⟩
    · cases hu : asciiPackage.IsUpper c with
      | false => rfl
      | true =>
        have hu' : c.isUpper = true := hu
        simp only [Char.isUpper, Bool.and_eq_true, decide_eq_true_eq] at hu'
        have h2 : c.toNat ≤ 90 := UInt32.le_def.mp hu'.2
        omega
    · cases hn : asciiPackage.IsNumber c with
      | false => rfl
      | true =>
        have hn' : c.isDigit = true := hn
        simp only [Char.isDigit, Bool.and_eq_true, decide_eq_true_eq] at hn'
        have h2 : c.toNat ≤ 57 := UInt32.le_def.mp hn'.2
        omega
  have hw : ∀ w ∈ ["Go", "Kit", "Service"], isCamelWord w = true := by decide
  have h := toSnakeCase_camel_words asciiPackage ["Go", "Kit", "Service"] hU (by simp) hw
  have hjoin : String.join ["Go", "Kit", "Service"] = "GoKitService" := by decide
  have hsnake : "_".intercalate (["Go", "Kit", "Service"].map String.toLower) =
      "go_kit_service" := by
    apply String.ext
    simp only [String.intercalate, List.map_cons, List.map_nil, intercalate_go_data,
      String.toLower, String.map_eq]
    decide
  rw [hjoin, hsnake] at h
  have hw2 : ∀ w ∈ ["Do", "Work", "Ctx"], isCamelWord w = true := by decide
  have h2 := toSnakeCase_camel_words asciiPackage ["Do", "Work", "Ctx"] hU (by simp) hw2
  have hjoin2 : String.join ["Do", "Work", "Ctx"] = "DoWorkCtx" := by decide
  have hsnake2 : "_".intercalate (["Do", "Work", "Ctx"].map String.toLower) =
      "do_work_ctx" := by
    apply String.ext
    simp only [String.intercalate, List.map_cons, List.map_nil, intercalate_go_data,
      String.toLower, String.map_eq]
    decide
  rw [hjoin2, hsnake2] at h2
  exact ⟨hU, hw, h.1, h.2.2.2, hw2, h2.1⟩

end Theorems
